import Mathlib

/-!
Verification of the session discovery and status-inference engine of
`agent-manager-x` (Rust, Tauri backend under `src-tauri/src/`).

The Rust code is shallowly embedded: pure functions become Lean functions,
machine integers become `Nat`/`Int`, `f32` CPU percentages become `Rat`
(only order comparisons against constants occur), Rust `String` becomes
Lean `String` with byte-lexicographic comparison embedded as a codepoint
lexicographic order on `String.data` (they agree on valid UTF-8), and all
clock / filesystem reads become explicit parameters (ages in seconds,
modification times, oracle functions).
-/

/-! ## Data model (src-tauri/src/session/model.rs) -/

/-- Status of a session, variants in source declaration order
(`session/model.rs`). -/
inductive SessionStatus where
  | Waiting
  | Processing
  | Thinking
  | Idle
  | Stale
deriving DecidableEq, Repr

/-- Type of AI coding agent, variants in source declaration order
(`session/model.rs`). -/
inductive AgentType where
  | Claude
  | OpenCode
  | Codex
deriving DecidableEq, Repr

/-- One inferred session (`session/model.rs`, struct `Session`).
`cpu_usage` (`f32`) is embedded as `Rat`; only order comparisons occur. -/
structure Session where
  id : String
  agent_type : AgentType
  project_name : String
  project_path : String
  git_branch : Option String
  github_url : Option String
  status : SessionStatus
  last_message : Option String
  last_message_role : Option String
  last_activity_at : String
  pid : Nat
  cpu_usage : Rat
  memory_bytes : Nat
  active_subagent_count : Nat
  is_background : Bool
deriving DecidableEq, Repr

/-- Aggregate output (`session/model.rs`, struct `SessionsResponse`). -/
structure SessionsResponse where
  sessions : List Session
  background_sessions : List Session
  total_count : Nat
  waiting_count : Nat
deriving DecidableEq, Repr

/-- One observed agent OS process (`agent/mod.rs`, struct `AgentProcess`).
`cwd` and `active_session_file` paths are embedded as strings. -/
structure AgentProcess where
  pid : Nat
  cpu_usage : Rat
  memory_bytes : Nat
  cwd : Option String
  data_home : Option String
  active_session_file : Option String
deriving DecidableEq, Repr

/-! ## Status functions (session/status.rs)

The module `session/status.rs` itself is not part of the provided sources
(`session/mod.rs` declares `mod status` and re-exports `determine_status`
and `status_sort_priority`; the tests in `tests/status_tests.rs`,
`tests/status_stale_tests.rs` and `tests/status_priority_tests.rs`
exercise them). The two functions are therefore modelled from the spec. -/

/-- Modelled from the spec: `status_sort_priority` of the missing module
`session/status.rs`. The spec orders the variants "from most active to
least active": Thinking, Processing, Waiting, Idle, Stale; the in-repo
test `test_status_sort_priority` pins the concrete values — Thinking and
Processing share the highest priority 0, then Waiting 1, Idle 2, Stale 3. -/
def status_sort_priority : SessionStatus → Nat
  | .Thinking => 0
  | .Processing => 0
  | .Waiting => 1
  | .Idle => 2
  | .Stale => 3

/-- Modelled from the spec: `determine_status` of the missing module
`session/status.rs`, per the seven-rule precedence of spec §4.4
(first match wins), which agrees with all thirteen cases of the in-repo
tests. Argument order follows the call sites:
(msg type, tool-use, tool-result, local-command, interrupted,
file recently modified, message is stale). -/
def determine_status (msgType : Option String)
    (hasToolUse hasToolResult isLocalCommand isInterrupted : Bool)
    (fileRecentlyModified messageIsStale : Bool) : SessionStatus :=
  if messageIsStale && !fileRecentlyModified then
    -- rule 1: staleness short-circuits unless the file was just touched
    if msgType = some "assistant" ∨ msgType = some "user" then
      SessionStatus.Waiting
    else
      SessionStatus.Idle
  else if msgType = some "assistant" then
    -- rules 2 and 3
    if hasToolUse then
      if fileRecentlyModified then SessionStatus.Processing else SessionStatus.Waiting
    else
      if fileRecentlyModified then SessionStatus.Processing else SessionStatus.Waiting
  else if msgType = some "user" then
    -- rules 4, 5 and 6
    if isLocalCommand || isInterrupted then
      SessionStatus.Waiting
    else if hasToolResult then
      if fileRecentlyModified then SessionStatus.Thinking else SessionStatus.Waiting
    else
      if fileRecentlyModified then SessionStatus.Thinking else SessionStatus.Waiting
  else
    -- rule 7: unknown role
    if fileRecentlyModified then SessionStatus.Thinking else SessionStatus.Idle

/-! ## Claude time-based escalation (session/parser/session_parser.rs 68-89) -/

/-- The time-based status upgrade block of `parse_session_file`
(`session_parser.rs` lines 68-89): when the inferred status is `Waiting`
or `Idle` and the last message timestamp parses, an age of at least
600 seconds escalates to `Stale`, at least 300 seconds to `Idle`.
`ageSecs = none` embeds a missing or unparseable timestamp. -/
def claude_time_escalation (status : SessionStatus) (ageSecs : Option Int) : SessionStatus :=
  if status = SessionStatus.Waiting ∨ status = SessionStatus.Idle then
    match ageSecs with
    | some age =>
        if age ≥ 600 then SessionStatus.Stale
        else if age ≥ 300 then SessionStatus.Idle
        else status
    | none => status
  else status

namespace Codex

/-- Codex `determine_status` (`agent/codex/session.rs` lines 445-467):
base status from CPU and last role, then the 5/10-minute escalation on
the file modification age. `elapsedSecs = none` embeds
`modified.elapsed()` returning `Err` (clock skew). -/
def determine_status (cpuUsage : Rat) (lastRole : Option String)
    (elapsedSecs : Option Nat) : SessionStatus :=
  let base :=
    if cpuUsage > 15 then SessionStatus.Processing
    else if lastRole = some "user" then SessionStatus.Processing
    else SessionStatus.Waiting
  if base = SessionStatus.Waiting then
    match elapsedSecs with
    | some age =>
        if age ≥ 600 then SessionStatus.Stale
        else if age ≥ 300 then SessionStatus.Idle
        else base
    | none => base
  else base

end Codex

namespace OpenCode

/-- OpenCode `determine_status` (`agent/opencode/builder.rs` lines 17-47):
base status from CPU and last role, then the 5/10-minute escalation on
`now - updated_ms/1000` (signed; a future timestamp gives a negative age). -/
def determine_status (cpuUsage : Rat) (lastRole : Option String)
    (updatedMs : Nat) (nowSecs : Int) : SessionStatus :=
  let base :=
    if cpuUsage > 15 then SessionStatus.Processing
    else if lastRole = some "assistant" then SessionStatus.Waiting
    else if lastRole = some "user" then SessionStatus.Processing
    else SessionStatus.Waiting
  if base = SessionStatus.Waiting then
    let ageSecs : Int := nowSecs - (updatedMs / 1000 : Nat)
    if ageSecs ≥ 600 then SessionStatus.Stale
    else if ageSecs ≥ 300 then SessionStatus.Idle
    else base
  else base

end OpenCode

/-! ## Rust string ordering

Rust compares `String`s byte-lexicographically; on valid UTF-8 this equals
codepoint-lexicographic order, embedded here on `String.data`. -/

/-- Lexicographic strict order on character lists (embedding of Rust's
`str` ordering). -/
def lexLtChars : List Char → List Char → Bool
  | _, [] => false
  | [], _ :: _ => true
  | a :: as, b :: bs =>
      if a < b then true
      else if b < a then false
      else lexLtChars as bs

/-- Embedding of Rust `String` comparison `a < b`. -/
def strLt (a b : String) : Bool :=
  lexLtChars a.data b.data

/-! ## Deduplication by pid (session/parser/sessions.rs 242-280) -/

/-- Transcription of `is_better_session` (`sessions.rs` lines 261-280):
candidate beats current by higher status priority (lower value), then
newer (string-greater) activity timestamp, then presence of a last
message, then greater session id. -/
def is_better_session (candidate current : Session) : Bool :=
  let candidate_priority := status_sort_priority candidate.status
  let current_priority := status_sort_priority current.status
  if candidate_priority ≠ current_priority then
    decide (candidate_priority < current_priority)
  else if candidate.last_activity_at ≠ current.last_activity_at then
    strLt current.last_activity_at candidate.last_activity_at
  else
    match candidate.last_message.isSome, current.last_message.isSome with
    | true, false => true
    | false, true => false
    | _, _ => strLt current.id candidate.id

/-- One step of the `dedupe_sessions_by_pid` loop (`sessions.rs` lines
245-256) restricted to one pid: insert when the map has no entry for the
pid, replace when the candidate is better. -/
def winnerStep (pid : Nat) (acc : Option Session) (s : Session) : Option Session :=
  if s.pid = pid then
    match acc with
    | none => some s
    | some current => if is_better_session s current then some s else some current
  else acc

/-- The entry that `dedupe_sessions_by_pid` (`sessions.rs` lines 242-259)
holds for `pid` in `best_by_pid` after the loop: the deduplicated output
contains exactly the sessions `dedupe_winner sessions pid` over all pids. -/
def dedupe_winner (sessions : List Session) (pid : Nat) : Option Session :=
  sessions.foldl (winnerStep pid) none

/-- Keys that `is_better_session` compares: status priority, activity
timestamp, presence of a last message, and id. -/
def sameKey (a b : Session) : Prop :=
  status_sort_priority a.status = status_sort_priority b.status ∧
  a.last_activity_at = b.last_activity_at ∧
  a.last_message.isSome = b.last_message.isSome ∧
  a.id = b.id

/-! ## Cross-agent aggregation (agent/mod.rs 57-108) -/

/-- The foreground comparator of `get_all_sessions` (`agent/mod.rs` lines
68-77) as a "less or equal" test: status priority ascending, ties broken
by activity timestamp descending. `sort_by` keeps `a` before `b` exactly
when the comparator does not return `Greater`, i.e. when this holds. -/
def foreground_le (a b : Session) : Bool :=
  let priority_a := status_sort_priority a.status
  let priority_b := status_sort_priority b.status
  if priority_a ≠ priority_b then
    decide (priority_a < priority_b)
  else
    !(strLt a.last_activity_at b.last_activity_at)

/-- `agent_sort_key` of `get_all_sessions` (`agent/mod.rs` lines 80-84). -/
def agent_sort_key : AgentType → Nat
  | .Claude => 0
  | .Codex => 1
  | .OpenCode => 2

/-- The background comparator of `get_all_sessions` (`agent/mod.rs` lines
86-94) as a "less or equal" test: agent key ascending, ties broken by
activity timestamp descending. -/
def background_le (a b : Session) : Bool :=
  let key_a := agent_sort_key a.agent_type
  let key_b := agent_sort_key b.agent_type
  if key_a ≠ key_b then
    decide (key_a < key_b)
  else
    !(strLt a.last_activity_at b.last_activity_at)

/-- `get_all_sessions` (`agent/mod.rs` lines 57-108) on an already merged
list of per-agent sessions: partition by `is_background` (the push loop
is an order-preserving filter), stable-sort each part by its comparator
(Rust `Vec::sort_by` is a stable sort; `List.insertionSort` is the stable
sort with the same comparator), then compute the counts. -/
def get_all_sessions (all_sessions : List Session) : SessionsResponse :=
  let foreground_sessions :=
    List.insertionSort (fun a b => foreground_le a b = true)
      (all_sessions.filter fun s => !s.is_background)
  let background_sessions :=
    List.insertionSort (fun a b => background_le a b = true)
      (all_sessions.filter fun s => s.is_background)
  { sessions := foreground_sessions
    background_sessions := background_sessions
    total_count := foreground_sessions.length
    waiting_count :=
      (foreground_sessions.filter fun s => s.status = SessionStatus.Waiting).length }

/-! ## Generic character-list helpers

Rust's `str::split(sep)` / `join` embedded on `List Char` (split keeps
empty pieces and always returns at least one piece, like Rust). -/

/-- Split a character list on a separator, keeping empty pieces
(Rust `str::split(char)` semantics: the result is never empty). -/
def splitOnChar (sep : Char) : List Char → List (List Char)
  | [] => [[]]
  | c :: rest =>
      if c = sep then [] :: splitOnChar sep rest
      else
        match splitOnChar sep rest with
        | h :: t => (c :: h) :: t
        | [] => [[c]]

/-- Join character lists with a separator (Rust `[&str]::join`). -/
def joinSep (sep : Char) : List (List Char) → List Char
  | [] => []
  | [x] => x
  | x :: y :: t => x ++ sep :: joinSep sep (y :: t)

/-- Rust `str::strip_prefix(c).unwrap_or(s)`: drop one leading `c` if
present. -/
def stripLead (c : Char) : List Char → List Char
  | [] => []
  | x :: xs => if x = c then xs else x :: xs

/-! ## Path conversion (session/parser/path_conversion.rs) -/

/-- The character loop of `convert_path_to_dir_name` (`path_conversion.rs`
lines 11-28): `/` becomes `-`; a `/` directly followed by `.` (a hidden
folder) becomes `--` with the dot dropped; other characters are copied. -/
def encodePathChars : List Char → List Char
  | [] => []
  | '/' :: '.' :: rest => '-' :: '-' :: encodePathChars rest
  | '/' :: rest => '-' :: encodePathChars rest
  | c :: rest => c :: encodePathChars rest

/-- `convert_path_to_dir_name` (`path_conversion.rs` lines 6-31). -/
def convert_path_to_dir_name (path : String) : String :=
  String.mk ('-' :: encodePathChars (stripLead '/' path.data))

/-- The `position(|p| p == "Projects" || p == "UnityProjects")` search of
`convert_dir_name_to_path` (`path_conversion.rs` line 53). -/
def findProjIdx : List (List Char) → Option Nat
  | [] => none
  | p :: ps =>
      if p = "Projects".data ∨ p = "UnityProjects".data then some 0
      else (findProjIdx ps).map (· + 1)

/-- The project-parts loop of `convert_dir_name_to_path`
(`path_conversion.rs` lines 69-102), carried state: hidden-folder mode,
current segment, accumulated segments. An empty part (a double dash)
flushes the current segment and enters hidden mode; the first part after
it gets a `.` prefix. -/
def projectSegmentsAux : List (List Char) → Bool → List Char → List (List Char) →
    List (List Char)
  | [], _, current, segs => if current ≠ [] then segs ++ [current] else segs
  | part :: rest, inHidden, current, segs =>
      if part = [] then
        projectSegmentsAux rest true []
          (if current ≠ [] then segs ++ [current] else segs)
      else if inHidden then
        if current = [] then projectSegmentsAux rest true ('.' :: part) segs
        else projectSegmentsAux rest true part (segs ++ [current])
      else
        if current = [] then projectSegmentsAux rest false part segs
        else projectSegmentsAux rest false (current ++ '-' :: part) segs

/-- The project-parts loop of `convert_dir_name_to_path`, started with no
hidden mode, empty current segment and no accumulated segments. -/
def projectSegments (parts : List (List Char)) : List (List Char) :=
  projectSegmentsAux parts false [] []

/-- The body of `convert_dir_name_to_path` (`path_conversion.rs` lines
46-111) after stripping the leading dash: split on dashes, locate the
first "Projects"/"UnityProjects" part; everything before and including it
is joined as path components (the `base`), the remaining parts go through
the project-segments loop; without such a part, fall back to replacing
every dash of the name by a slash. -/
def decodeFromName (name : List Char) : List Char :=
  if splitOnChar '-' name = [] then []
  else
    match findProjIdx (splitOnChar '-' name) with
    | some idx =>
        if (splitOnChar '-' name).drop (idx + 1) = [] then
          '/' :: joinSep '/' ((splitOnChar '-' name).take (idx + 1))
        else
          ('/' :: joinSep '/' ((splitOnChar '-' name).take (idx + 1))) ++
            ('/' :: joinSep '/' (projectSegments
              ((splitOnChar '-' name).drop (idx + 1))))
    | none => '/' :: name.map fun c => if c = '-' then '/' else c

/-- `convert_dir_name_to_path` (`path_conversion.rs` lines 41-112) on
characters: strip one leading dash, then decode the name. -/
def decodeDirNameChars (dirName : List Char) : List Char :=
  decodeFromName (stripLead '-' dirName)

/-- `convert_dir_name_to_path` (`path_conversion.rs` lines 41-112). -/
def convert_dir_name_to_path (dirName : String) : String :=
  String.mk (decodeDirNameChars dirName.data)

/-! ## Claude session parsing (session/parser/session_parser.rs,
session/parser/jsonl_files.rs)

File-system and clock reads are embedded as explicit data: each JSONL
file carries its extracted message data and its age in seconds; RFC3339
parsing combined with "now" becomes an oracle `ageOf` returning the age
in seconds of a timestamp string, `none` embedding a parse failure. -/

/-- `ExtractedMessageData` (`message_extraction.rs` lines 17-29). -/
structure ExtractedMessageData where
  session_id : Option String
  git_branch : Option String
  last_timestamp : Option String
  last_message : Option String
  last_user_message : Option String
  last_role : Option String
  last_msg_type : Option String
  last_has_tool_use : Bool
  last_has_tool_result : Bool
  last_is_local_command : Bool
  last_is_interrupted : Bool
deriving DecidableEq, Repr

/-- One JSONL file as the parser sees it: its path, its modification age
in seconds (`none` when metadata is unavailable), and the result of
`extract_message_data` (`none` when the file cannot be opened). -/
structure JsonlFileEntry where
  path : String
  fileAgeSecs : Option Rat
  data : Option ExtractedMessageData
deriving DecidableEq, Repr

/-- Environment oracles of the Claude parser: `ageOf ts` is the age in
seconds of RFC3339 timestamp `ts` relative to now (`none` = parse
failure), `githubUrlOf` embeds `get_github_url`, and `subagentCountOf`
embeds `count_active_subagents` keyed by session id. -/
structure ClaudeEnv where
  ageOf : String → Option Int
  githubUrlOf : String → Option String
  subagentCountOf : String → Nat

/-- The staleness computation of `parse_session_file`
(`session_parser.rs` lines 44-55): age over 30 seconds, with a missing or
unparseable timestamp treated as stale. -/
def message_is_stale (env : ClaudeEnv) (ts : Option String) : Bool :=
  match ts.bind env.ageOf with
  | some age => decide (age > 30)
  | none => true

/-- The message truncation of `parse_session_file` (`session_parser.rs`
lines 106-112): over 5000 chars, truncate and append an ellipsis. -/
def truncate_message (m : String) : String :=
  if m.data.length > 5000 then String.mk (m.data.take 5000) ++ "..." else m

/-- The project-name extraction of `parse_session_file`
(`session_parser.rs` lines 97-102): last nonempty `/`-separated
component, defaulting to "Unknown". -/
def project_name_of_path (p : String) : String :=
  ((((splitOnChar '/' p.data).filter (fun s => s ≠ [])).getLast?).map
    String.mk).getD "Unknown"

/-- `parse_session_file` (`session_parser.rs` lines 14-132). The source's
struct literal omits `memory_bytes`/`is_background`; the call site in
`jsonl_files.rs` passes the process memory, and Claude sessions carry no
background flag, embedded as `false`. -/
def parse_session_file (env : ClaudeEnv) (file : JsonlFileEntry)
    (project_path : String) (pid : Nat) (cpu_usage : Rat) (memory_bytes : Nat)
    (agent_type : AgentType) : Option Session :=
  let file_recently_modified :=
    match file.fileAgeSecs with
    | some age => decide (age < 3)
    | none => false
  match file.data with
  | none => none
  | some data =>
      match data.session_id with
      | none => none
      | some session_id =>
          let stale := message_is_stale env data.last_timestamp
          let status0 := determine_status data.last_msg_type data.last_has_tool_use
            data.last_has_tool_result data.last_is_local_command
            data.last_is_interrupted file_recently_modified stale
          let status := claude_time_escalation status0 (data.last_timestamp.bind env.ageOf)
          some { id := session_id
                 agent_type := agent_type
                 project_name := project_name_of_path project_path
                 project_path := project_path
                 git_branch := data.git_branch
                 github_url := env.githubUrlOf project_path
                 status := status
                 last_message := data.last_message.map truncate_message
                 last_message_role := data.last_role
                 last_activity_at := data.last_timestamp.getD "Unknown"
                 pid := pid
                 cpu_usage := cpu_usage
                 memory_bytes := memory_bytes
                 active_subagent_count := 0
                 is_background := false }

/-- The 10-second recency test of the `find_session_for_process` merge
loop (`jsonl_files.rs` lines 75-85). -/
def recent10 (file : JsonlFileEntry) : Bool :=
  match file.fileAgeSecs with
  | some age => decide (age < 10)
  | none => false

/-- The merge loop of `find_session_for_process` (`jsonl_files.rs` lines
65-120): other recently-modified files of the same session may contribute
a more active status (lower priority value); nothing else of the session
changes. -/
def mergeStep (env : ClaudeEnv) (primary : JsonlFileEntry) (project_path : String)
    (pid : Nat) (cpu_usage : Rat) (memory_bytes : Nat) (agent_type : AgentType)
    (sess : Session) (f : JsonlFileEntry) : Session :=
  if f.path = primary.path then sess
  else if recent10 f = false then sess
  else
    match parse_session_file env f project_path pid cpu_usage memory_bytes
        agent_type with
    | none => sess
    | some other =>
        if other.id ≠ sess.id then sess
        else if status_sort_priority other.status
            < status_sort_priority sess.status then
          { sess with status := other.status }
        else sess

/-- The merge loop folds `mergeStep` over all files of the project. -/
def merge_more_active (env : ClaudeEnv) (files : List JsonlFileEntry)
    (primary : JsonlFileEntry) (project_path : String) (pid : Nat)
    (cpu_usage : Rat) (memory_bytes : Nat) (agent_type : AgentType)
    (session : Session) : Session :=
  files.foldl (mergeStep env primary project_path pid cpu_usage memory_bytes
    agent_type) session

/-- The staleness computation of the CPU-override check
(`jsonl_files.rs` lines 128-136) on the session's `last_activity_at`. -/
def message_is_stale_for_cpu (env : ClaudeEnv) (last_activity_at : String) : Bool :=
  match env.ageOf last_activity_at with
  | some age => decide (age > 30)
  | none => true

/-- The CPU override of `find_session_for_process` (`jsonl_files.rs`
lines 122-147): a `Waiting` session whose process uses more than 15% CPU
and whose last message is not stale is overridden to `Processing`. -/
def cpu_override (env : ClaudeEnv) (cpu_usage : Rat) (session : Session) : Session :=
  if session.status = SessionStatus.Waiting ∧ cpu_usage > 15 ∧
      message_is_stale_for_cpu env session.last_activity_at = false then
    { session with status := SessionStatus.Processing }
  else session

/-- `find_session_for_process` (`jsonl_files.rs` lines 41-150) up to but
excluding the final CPU override: parse the file at `index`, attach the
sub-agent count, merge more-active statuses from other recent files. -/
def pre_cpu_session (env : ClaudeEnv) (files : List JsonlFileEntry)
    (project_path : String) (process : AgentProcess) (index : Nat)
    (agent_type : AgentType) : Option Session :=
  match files.get? index with
  | none => none
  | some primary =>
      match parse_session_file env primary project_path process.pid
          process.cpu_usage process.memory_bytes agent_type with
      | none => none
      | some s0 =>
          some (merge_more_active env files primary project_path process.pid
            process.cpu_usage process.memory_bytes agent_type
            { s0 with active_subagent_count := env.subagentCountOf s0.id })

/-- `find_session_for_process` (`jsonl_files.rs` lines 41-150): the
pre-CPU session with the final CPU override applied. -/
def find_session_for_process (env : ClaudeEnv) (files : List JsonlFileEntry)
    (project_path : String) (process : AgentProcess) (index : Nat)
    (agent_type : AgentType) : Option Session :=
  (pre_cpu_session env files project_path process index agent_type).map
    (cpu_override env process.cpu_usage)

/-! ## Codex session matching (agent/codex/session.rs) -/

namespace Codex

/-- `CodexSessionFile` (`agent/codex/session.rs` lines 12-21); the
modification time is seconds since the epoch. -/
structure SessionFile where
  path : String
  modified : Nat
  cwd : Option String
  session_id : Option String
  last_message : Option String
  last_role : Option String
  last_activity_at : Option String
deriving DecidableEq, Repr

/-- Clock oracles of `get_codex_sessions`: current time in epoch seconds
(for `modified.elapsed()`), `chrono::Utc::now().to_rfc3339()` and
`system_time_to_rfc3339`. -/
structure Env where
  nowSecs : Nat
  nowRfc3339 : String
  mtimeRfc3339 : Nat → String

/-- `SystemTime::elapsed()`: `Err` (here `none`) when the file time lies
in the future. -/
def elapsedSecs (env : Env) (modified : Nat) : Option Nat :=
  if modified ≤ env.nowSecs then some (env.nowSecs - modified) else none

/-- Rust `Path::file_name` on a path string: the last nonempty
`/`-separated component (`None` for the bare root). -/
def pathFileName (p : String) : Option String :=
  (((splitOnChar '/' p.data).filter (fun s => s ≠ [])).getLast?).map String.mk

/-- Rust `Path::file_stem`: the file name up to its last `.`, keeping a
sole leading-dot name whole. -/
def pathFileStem (p : String) : Option String :=
  (pathFileName p).map fun name =>
    let parts := splitOnChar '.' name.data
    if parts.length ≤ 1 then name
    else if name.data.head? = some '.' ∧ parts.length = 2 then name
    else String.mk (joinSep '.' parts.dropLast)

/-- `is_background_session` (`agent/codex/session.rs` lines 221-229):
background iff the project path is the bare root and the last message is
absent or all-whitespace (`msg.trim().is_empty()`). -/
def is_background_session (project_path : String) (last_message : Option String) :
    Bool :=
  if project_path ≠ "/" then false
  else
    match last_message with
    | some msg => msg.data.all fun c => c.isWhitespace
    | none => true

/-- `build_session_from_file` (`agent/codex/session.rs` lines 158-219);
the source returns `Option` but never `None`, embedded total. -/
def build_session_from_file (env : Env) (file : SessionFile)
    (process : AgentProcess) : Session :=
  let project_path := (file.cwd.or process.cwd).getD "/"
  let project_name := (pathFileName project_path).getD "Unknown"
  let status := Codex.determine_status process.cpu_usage file.last_role
    (elapsedSecs env file.modified)
  let last_activity_at := file.last_activity_at.getD (env.mtimeRfc3339 file.modified)
  let session_id := ((pathFileStem file.path).or file.session_id).getD
    ("codex-" ++ toString process.pid)
  { id := session_id
    agent_type := AgentType.Codex
    project_name := project_name
    project_path := project_path
    git_branch := none
    github_url := none
    status := status
    last_message := file.last_message
    last_message_role := file.last_role
    last_activity_at := last_activity_at
    pid := process.pid
    cpu_usage := process.cpu_usage
    memory_bytes := process.memory_bytes
    active_subagent_count := 0
    is_background := is_background_session project_path file.last_message }

/-- The fallback session of `get_codex_sessions` (`agent/codex/session.rs`
lines 89-126): synthesized when no file could be assigned. -/
def fallback_session (env : Env) (process : AgentProcess) : Session :=
  let name_path : String × String :=
    match process.cwd with
    | some cwd => ((pathFileName cwd).getD "Unknown", cwd)
    | none => ("Unknown", "/")
  { id := "codex-" ++ toString process.pid
    agent_type := AgentType.Codex
    project_name := name_path.1
    project_path := name_path.2
    git_branch := none
    github_url := none
    status := if process.cpu_usage > 15 then SessionStatus.Processing
      else SessionStatus.Stale
    last_message := none
    last_message_role := none
    last_activity_at := env.nowRfc3339
    pid := process.pid
    cpu_usage := process.cpu_usage
    memory_bytes := process.memory_bytes
    active_subagent_count := 0
    is_background := is_background_session name_path.2 none }

/-- The per-cwd queue of `get_codex_sessions` (`agent/codex/session.rs`
lines 41-51): the indexed files declaring this cwd, stable-sorted newest
first. -/
def cwdQueue (files : List SessionFile) (c : String) :
    List (Nat × SessionFile) :=
  List.insertionSort (fun a b => b.2.modified ≤ a.2.modified)
    (files.enum.filter fun p => p.2.cwd = some c)

/-- The global fallback queue of `get_codex_sessions`
(`agent/codex/session.rs` lines 53-55): all indexed files, stable-sorted
newest first. -/
def fallbackQueue (files : List SessionFile) : List (Nat × SessionFile) :=
  List.insertionSort (fun a b => b.2.modified ≤ a.2.modified) files.enum

/-- The per-process assignment of `get_codex_sessions`
(`agent/codex/session.rs` lines 58-79): pop the first unused file from
the process-cwd queue, else from the global queue. Popping from the
mutable queues equals searching the full sorted queue for the first
unused index, since popped-and-skipped indices are used forever. -/
def assignIdx (files : List SessionFile) (used : List Nat)
    (process : AgentProcess) : Option (Nat × SessionFile) :=
  let fromCwd :=
    match process.cwd with
    | some c => (cwdQueue files c).find? fun q => !(used.contains q.1)
    | none => none
  match fromCwd with
  | some q => some q
  | none => (fallbackQueue files).find? fun q => !(used.contains q.1)

/-- The process loop of `get_codex_sessions` (`agent/codex/session.rs`
lines 58-127): assign a file and build its session, else synthesize the
fallback session. -/
def sessionsLoop (env : Env) (files : List SessionFile) :
    List AgentProcess → List Nat → List Session
  | [], _ => []
  | p :: ps, used =>
      match assignIdx files used p with
      | some q =>
          build_session_from_file env q.2 p :: sessionsLoop env files ps (q.1 :: used)
      | none => fallback_session env p :: sessionsLoop env files ps used

/-- `get_codex_sessions` (`agent/codex/session.rs` lines 24-130) given the
collected session files: the process loop started with no used files. -/
def get_codex_sessions (env : Env) (files : List SessionFile)
    (processes : List AgentProcess) : List Session :=
  sessionsLoop env files processes []

end Codex

/-! ## Concrete sessions used in counterexamples and witnesses -/

/-- A baseline session value for concrete instances. -/
def baseSession : Session :=
  { id := "x"
    agent_type := AgentType.Claude
    project_name := "p1"
    project_path := "/p1"
    git_branch := none
    github_url := none
    status := SessionStatus.Waiting
    last_message := none
    last_message_role := none
    last_activity_at := "t"
    pid := 1
    cpu_usage := 0
    memory_bytes := 0
    active_subagent_count := 0
    is_background := false }

/-- The same session except for its project name: same pid and the same
four comparison keys as `baseSession`. -/
def baseSessionVariant : Session :=
  { baseSession with project_name := "p2" }

/-- Codex clock oracle used in concrete instances. -/
def codexEnvW : Codex.Env :=
  { nowSecs := 1000
    nowRfc3339 := "2024-01-01T00:00:00+00:00"
    mtimeRfc3339 := fun _ => "1970-01-01T00:00:00+00:00" }

/-- A Codex process with no working directory. -/
def codexProcW : AgentProcess :=
  { pid := 9, cpu_usage := 0, memory_bytes := 0, cwd := none,
    data_home := none, active_session_file := none }

/-- An older Codex session file declaring cwd "/a". -/
def codexFileA : Codex.SessionFile :=
  { path := "/h/.codex/sessions/2024/p0.jsonl", modified := 100,
    cwd := some "/a", session_id := none, last_message := some "hello",
    last_role := some "assistant", last_activity_at := some "ts0" }

/-- A newer Codex session file declaring the same cwd "/a". -/
def codexFileB : Codex.SessionFile :=
  { path := "/h/.codex/sessions/2024/p1.jsonl", modified := 200,
    cwd := some "/a", session_id := none, last_message := some "hey",
    last_role := some "assistant", last_activity_at := some "ts1" }

/-- A Codex process in "/a" whose currently open session file (as resolved
by `find_open_session_file`) is the older file `codexFileA`. -/
def codexProcOpen : AgentProcess :=
  { pid := 7, cpu_usage := 0, memory_bytes := 0, cwd := some "/a",
    data_home := none,
    active_session_file := some "/h/.codex/sessions/2024/p0.jsonl" }

/-- Extracted message data with a missing last timestamp. -/
def claudeDataW : ExtractedMessageData :=
  { session_id := some "sid", git_branch := none, last_timestamp := none,
    last_message := none, last_user_message := none, last_role := none,
    last_msg_type := none, last_has_tool_use := false,
    last_has_tool_result := false, last_is_local_command := false,
    last_is_interrupted := false }

/-- A JSONL file entry carrying `claudeDataW`. -/
def claudeFileW : JsonlFileEntry :=
  { path := "f.jsonl", fileAgeSecs := some 1, data := some claudeDataW }

/-- A Claude parser oracle for which no timestamp string parses. -/
def claudeEnvNine : ClaudeEnv :=
  { ageOf := fun _ => none, githubUrlOf := fun _ => none,
    subagentCountOf := fun _ => 0 }

/-! ## Theorems -/

theorem lexLtChars_irrefl : ∀ l : List Char, lexLtChars l l = false
  | [] => rfl
  | a :: as => by simp [lexLtChars, lexLtChars_irrefl as]

theorem lexLtChars_asymm : ∀ a b : List Char,
    lexLtChars a b = true → lexLtChars b a = false
  | _, [], h => by simp [lexLtChars] at h
  | [], _ :: _, _ => rfl
  | a :: as, b :: bs, h => by
      by_cases hab : a < b
      · simp [lexLtChars, hab, asymm hab, ne_of_gt hab]
      · by_cases hba : b < a
        · simp [lexLtChars, hab, hba] at h
        · have : a = b := le_antisymm (not_lt.mp hba) (not_lt.mp hab)
          subst this
          simp [lexLtChars, lt_irrefl] at h ⊢
          exact lexLtChars_asymm as bs h

theorem lexLtChars_trans : ∀ a b c : List Char,
    lexLtChars a b = true → lexLtChars b c = true → lexLtChars a c = true
  | _, _, [], _, h2 => by simp [lexLtChars] at h2
  | _, [], _ :: _, h1, _ => by simp [lexLtChars] at h1
  | [], _ :: _, _ :: _, _, _ => rfl
  | a :: as, b :: bs, c :: cs, h1, h2 => by
      by_cases hab : a < b
      · by_cases hbc : b < c
        · simp [lexLtChars, lt_trans hab hbc]
        · by_cases hcb : c < b
          · simp [lexLtChars, hbc, hcb] at h2
          · have : b = c := le_antisymm (not_lt.mp hcb) (not_lt.mp hbc)
            subst this
            simp [lexLtChars, hab]
      · by_cases hba : b < a
        · simp [lexLtChars, hab, hba] at h1
        · have : a = b := le_antisymm (not_lt.mp hba) (not_lt.mp hab)
          subst this
          simp [lexLtChars, lt_irrefl] at h1
          by_cases hbc : a < c
          · simp [lexLtChars, hbc]
          · by_cases hcb : c < a
            · simp [lexLtChars, hbc, hcb] at h2
            · have : a = c := le_antisymm (not_lt.mp hcb) (not_lt.mp hbc)
              subst this
              simp [lexLtChars, lt_irrefl] at h2 ⊢
              exact lexLtChars_trans as bs cs h1 h2

theorem lexLtChars_eq_of_not_lt : ∀ a b : List Char,
    lexLtChars a b = false → lexLtChars b a = false → a = b
  | [], [], _, _ => rfl
  | [], _ :: _, h1, _ => by simp [lexLtChars] at h1
  | _ :: _, [], _, h2 => by simp [lexLtChars] at h2
  | a :: as, b :: bs, h1, h2 => by
      by_cases hab : a < b
      · simp [lexLtChars, hab] at h1
      · by_cases hba : b < a
        · simp [lexLtChars, hba] at h2
        · have hab' : a = b := le_antisymm (not_lt.mp hba) (not_lt.mp hab)
          subst hab'
          simp [lexLtChars, lt_irrefl] at h1 h2
          exact congrArg (a :: ·) (lexLtChars_eq_of_not_lt as bs h1 h2)

theorem strLt_irrefl (a : String) : strLt a a = false :=
  lexLtChars_irrefl a.data

theorem strLt_asymm {a b : String} (h : strLt a b = true) : strLt b a = false :=
  lexLtChars_asymm a.data b.data h

theorem strLt_trans {a b c : String} (h1 : strLt a b = true)
    (h2 : strLt b c = true) : strLt a c = true :=
  lexLtChars_trans a.data b.data c.data h1 h2

theorem strLt_eq_of_not_lt {a b : String} (h1 : strLt a b = false)
    (h2 : strLt b a = false) : a = b := by
  cases a; cases b
  exact congrArg String.mk (lexLtChars_eq_of_not_lt _ _ h1 h2)

/-- C1. The status sort priority function does NOT order the five statuses
strictly: the in-repo test `test_status_sort_priority` pins
`status_sort_priority(Thinking) = 0 = status_sort_priority(Processing)`,
so `priority(Thinking) < priority(Processing)` fails. -/
theorem status_priority_not_strict :
    ¬ status_sort_priority SessionStatus.Thinking
      < status_sort_priority SessionStatus.Processing := by
  decide

/-- C1 (amended). The status sort priority is nondecreasing along the
variant order Thinking, Processing, Waiting, Idle, Stale, with Thinking
and Processing sharing the highest priority 0, then Waiting 1 < Idle 2
< Stale 3. -/
theorem status_priority_order :
    status_sort_priority SessionStatus.Thinking = 0 ∧
    status_sort_priority SessionStatus.Processing = 0 ∧
    status_sort_priority SessionStatus.Waiting = 1 ∧
    status_sort_priority SessionStatus.Idle = 2 ∧
    status_sort_priority SessionStatus.Stale = 3 ∧
    status_sort_priority SessionStatus.Thinking
      ≤ status_sort_priority SessionStatus.Processing ∧
    status_sort_priority SessionStatus.Processing
      < status_sort_priority SessionStatus.Waiting ∧
    status_sort_priority SessionStatus.Waiting
      < status_sort_priority SessionStatus.Idle ∧
    status_sort_priority SessionStatus.Idle
      < status_sort_priority SessionStatus.Stale := by
  decide

/-- C2. With a stale message and a file that was not recently modified,
`determine_status` returns `Waiting` for assistant/user roles and `Idle`
for unknown roles, regardless of the tool-use, tool-result, local-command
and interrupted flags; and when the file was recently modified the
staleness flag never alters the result. -/
theorem determine_status_stale_behavior :
    (∀ (msgType : Option String) (tu tr lc ii : Bool),
      determine_status msgType tu tr lc ii false true =
        if msgType = some "assistant" ∨ msgType = some "user" then
          SessionStatus.Waiting
        else SessionStatus.Idle) ∧
    (∀ (msgType : Option String) (tu tr lc ii : Bool),
      determine_status msgType tu tr lc ii true true =
        determine_status msgType tu tr lc ii true false) := by
  constructor
  · intro msgType tu tr lc ii
    simp [determine_status]
  · intro msgType tu tr lc ii
    simp [determine_status]

/-- C4. In all three escalation variants (Claude `parse_session_file`,
Codex `determine_status`, OpenCode `determine_status`), a session whose
pre-escalation status is `Waiting` resolves to `Stale` for every elapsed
time of at least 10 minutes and to `Idle` for every elapsed time in
[5 min, 10 min); re-evaluating at any larger elapsed value still yields
`Stale`, never `Waiting` or `Idle`. -/
theorem escalation_idempotent_past_thresholds :
    (∀ age : Int,
      (age ≥ 600 → claude_time_escalation SessionStatus.Waiting (some age)
        = SessionStatus.Stale) ∧
      (age ≥ 300 → age < 600 → claude_time_escalation SessionStatus.Waiting (some age)
        = SessionStatus.Idle)) ∧
    (∀ (cpu : Rat) (role : Option String) (age : Nat),
      ¬ cpu > 15 → role ≠ some "user" →
      (age ≥ 600 → Codex.determine_status cpu role (some age) = SessionStatus.Stale) ∧
      (age ≥ 300 → age < 600 →
        Codex.determine_status cpu role (some age) = SessionStatus.Idle)) ∧
    (∀ (cpu : Rat) (role : Option String) (updatedMs : Nat) (nowSecs : Int),
      ¬ cpu > 15 → role ≠ some "user" →
      (nowSecs - (updatedMs / 1000 : Nat) ≥ 600 →
        OpenCode.determine_status cpu role updatedMs nowSecs = SessionStatus.Stale) ∧
      (nowSecs - (updatedMs / 1000 : Nat) ≥ 300 →
        nowSecs - (updatedMs / 1000 : Nat) < 600 →
        OpenCode.determine_status cpu role updatedMs nowSecs = SessionStatus.Idle)) := by
  refine ⟨?_, ?_, ?_⟩
  · intro age
    constructor
    · intro h
      simp [claude_time_escalation, h]
    · intro h1 h2
      simp [claude_time_escalation, h1, not_le.mpr h2]
  · intro cpu role age hcpu hrole
    constructor
    · intro h
      simp [Codex.determine_status, hcpu, hrole, h]
    · intro h1 h2
      simp [Codex.determine_status, hcpu, hrole, h1, Nat.not_le.mpr h2]
  · intro cpu role updatedMs nowSecs hcpu hrole
    constructor
    · intro h
      have h' : 600 ≤ nowSecs - (updatedMs : Int) / 1000 := by omega
      cases role with
      | none => simp [OpenCode.determine_status, hcpu, h']
      | some r =>
          have hru : ¬ r = "user" := fun hu => hrole (by simp [hu])
          by_cases hr : r = "assistant"
          · simp [OpenCode.determine_status, hcpu, hr, h']
          · simp [OpenCode.determine_status, hcpu, hr, hru, h']
    · intro h1 h2
      have h1' : 300 ≤ nowSecs - (updatedMs : Int) / 1000 := by omega
      have h2' : ¬ 600 ≤ nowSecs - (updatedMs : Int) / 1000 := by omega
      cases role with
      | none => simp [OpenCode.determine_status, hcpu, h1', h2']
      | some r =>
          have hru : ¬ r = "user" := fun hu => hrole (by simp [hu])
          by_cases hr : r = "assistant"
          · simp [OpenCode.determine_status, hcpu, hr, h1', h2']
          · simp [OpenCode.determine_status, hcpu, hr, hru, h1', h2']

/-- C4 witness: the three escalation variants evaluated at concrete
inputs on both sides of the thresholds. -/
theorem escalation_idempotent_past_thresholds_witness :
    claude_time_escalation SessionStatus.Waiting (some 660) = SessionStatus.Stale ∧
    claude_time_escalation SessionStatus.Waiting (some 301) = SessionStatus.Idle ∧
    Codex.determine_status 3 (some "assistant") (some 1200) = SessionStatus.Stale ∧
    Codex.determine_status 3 none (some 400) = SessionStatus.Idle ∧
    OpenCode.determine_status 3 (some "assistant") 5000 700 = SessionStatus.Stale ∧
    OpenCode.determine_status 3 none 5000 400 = SessionStatus.Idle := by
  refine ⟨?_, ?_, ?_, ?_, ?_, ?_⟩
  · exact (escalation_idempotent_past_thresholds.1 660).1 (by norm_num)
  · exact (escalation_idempotent_past_thresholds.1 301).2 (by norm_num) (by norm_num)
  · exact (escalation_idempotent_past_thresholds.2.1 3 (some "assistant") 1200
      (by norm_num) (by simp)).1 (by norm_num)
  · exact (escalation_idempotent_past_thresholds.2.1 3 none 400
      (by norm_num) (by simp)).2 (by norm_num) (by norm_num)
  · exact (escalation_idempotent_past_thresholds.2.2 3 (some "assistant") 5000 700
      (by norm_num) (by simp)).1 (by norm_num)
  · exact (escalation_idempotent_past_thresholds.2.2 3 none 5000 400
      (by norm_num) (by simp)).2 (by norm_num) (by norm_num)


theorem is_better_session_eq_true_iff (a b : Session) :
    is_better_session a b = true ↔
      status_sort_priority a.status < status_sort_priority b.status ∨
      (status_sort_priority a.status = status_sort_priority b.status ∧
        (strLt b.last_activity_at a.last_activity_at = true ∨
          (a.last_activity_at = b.last_activity_at ∧
            ((a.last_message.isSome = true ∧ b.last_message.isSome = false) ∨
              (a.last_message.isSome = b.last_message.isSome ∧
                strLt b.id a.id = true))))) := by
  unfold is_better_session
  by_cases hp : status_sort_priority a.status = status_sort_priority b.status
  · by_cases hact : a.last_activity_at = b.last_activity_at
    · cases hma : a.last_message.isSome <;> cases hmb : b.last_message.isSome <;>
        simp [hp, hact, hma, hmb, strLt_irrefl]
    · simp [hp, hact, strLt_irrefl]
  · have hnp : ¬ (status_sort_priority a.status < status_sort_priority b.status ∧
        status_sort_priority a.status = status_sort_priority b.status) := by
      omega
    simp [hp]

theorem is_better_session_asymm {a b : Session}
    (h : is_better_session a b = true) : is_better_session b a = false := by
  rw [is_better_session_eq_true_iff] at h
  rw [← Bool.not_eq_true, is_better_session_eq_true_iff]
  rcases h with hlt | ⟨hp, hact | ⟨heq, ⟨hma, hmb⟩ | ⟨hmsg, hid⟩⟩⟩
  · rintro (hlt' | ⟨hp', _⟩) <;> omega
  · rintro (hlt' | ⟨hp', hact' | ⟨heq', _⟩⟩)
    · omega
    · have := strLt_asymm hact
      rw [hact'] at this
      simp at this
    · rw [heq'] at hact
      rw [strLt_irrefl] at hact
      exact Bool.false_ne_true hact
  · rintro (hlt' | ⟨hp', hact' | ⟨heq', ⟨hma', hmb'⟩ | ⟨hmsg', _⟩⟩⟩)
    · omega
    · rw [heq] at hact'
      rw [strLt_irrefl] at hact'
      exact Bool.false_ne_true hact'
    · rw [hma] at hmb'
      simp at hmb'
    · rw [hma, hmb] at hmsg'
      simp at hmsg'
  · rintro (hlt' | ⟨hp', hact' | ⟨heq', ⟨hma', hmb'⟩ | ⟨hmsg', hid'⟩⟩⟩)
    · omega
    · rw [heq] at hact'
      rw [strLt_irrefl] at hact'
      exact Bool.false_ne_true hact'
    · rw [hmsg] at hmb'
      rw [hma'] at hmb'
      simp at hmb'
    · have := strLt_asymm hid
      rw [hid'] at this
      simp at this

theorem is_better_session_eq_key {a b : Session}
    (h1 : is_better_session a b = false) (h2 : is_better_session b a = false) :
    sameKey a b := by
  rw [← Bool.not_eq_true, is_better_session_eq_true_iff] at h1 h2
  push_neg at h1 h2
  have hp : status_sort_priority a.status = status_sort_priority b.status := by
    omega
  have h1' := h1.2 hp
  have h2' := h2.2 hp.symm
  have hact : a.last_activity_at = b.last_activity_at := by
    apply strLt_eq_of_not_lt
    · exact Bool.not_eq_true _ |>.mp h2'.1
    · exact Bool.not_eq_true _ |>.mp h1'.1
  have h1m := h1'.2 hact
  have h2m := h2'.2 hact.symm
  have hmsg : a.last_message.isSome = b.last_message.isSome := by
    cases hma : a.last_message.isSome <;> cases hmb : b.last_message.isSome
    · rfl
    · exact absurd hma (h2m.1 hmb)
    · exact absurd hmb (h1m.1 hma)
    · rfl
  have hid : a.id = b.id := by
    apply strLt_eq_of_not_lt
    · exact Bool.not_eq_true _ |>.mp (h2m.2 hmsg.symm)
    · exact Bool.not_eq_true _ |>.mp (h1m.2 hmsg)
  exact ⟨hp, hact, hmsg, hid⟩

theorem is_better_session_trans {a b c : Session}
    (h1 : is_better_session a b = true) (h2 : is_better_session b c = true) :
    is_better_session a c = true := by
  rw [is_better_session_eq_true_iff] at h1 h2 ⊢
  rcases h1 with hlt1 | ⟨hp1, hin1⟩
  · rcases h2 with hlt2 | ⟨hp2, _⟩
    · exact Or.inl (lt_trans hlt1 hlt2)
    · exact Or.inl (by omega)
  · rcases h2 with hlt2 | ⟨hp2, hin2⟩
    · exact Or.inl (by omega)
    · refine Or.inr ⟨hp1.trans hp2, ?_⟩
      rcases hin1 with hact1 | ⟨heq1, hmsg1⟩
      · rcases hin2 with hact2 | ⟨heq2, _⟩
        · exact Or.inl (strLt_trans hact2 hact1)
        · rw [heq2] at hact1
          exact Or.inl hact1
      · rcases hin2 with hact2 | ⟨heq2, hmsg2⟩
        · rw [heq1]
          exact Or.inl hact2
        · refine Or.inr ⟨heq1.trans heq2, ?_⟩
          rcases hmsg1 with ⟨hma1, hmb1⟩ | ⟨hmeq1, hid1⟩
          · rcases hmsg2 with ⟨hma2, _⟩ | ⟨hmeq2, _⟩
            · rw [hmb1] at hma2
              exact absurd hma2 (by simp)
            · rw [← hmeq2] at *
              exact Or.inl ⟨hma1, hmb1⟩
          · rcases hmsg2 with ⟨hma2, hmb2⟩ | ⟨hmeq2, hid2⟩
            · rw [hmeq1]
              exact Or.inl ⟨hma2, hmb2⟩
            · exact Or.inr ⟨hmeq1.trans hmeq2, strLt_trans hid2 hid1⟩

theorem is_better_session_not_trans {a b c : Session}
    (h1 : is_better_session a b = false) (h2 : is_better_session b c = false) :
    is_better_session a c = false := by
  by_cases hac : is_better_session a c = true
  · by_cases hba : is_better_session b a = true
    · have hbc := is_better_session_trans hba hac
      rw [hbc] at h2
      simp at h2
    · have hkey := is_better_session_eq_key h1 (Bool.not_eq_true _ |>.mp hba)
      -- same keys: a better than c iff b better than c
      rcases hkey with ⟨hp, hact, hmsg, hid⟩
      rw [is_better_session_eq_true_iff] at hac
      rw [← Bool.not_eq_true, is_better_session_eq_true_iff] at h2
      push_neg at h2
      rcases hac with hlt | ⟨hpe, hin⟩
      · omega
      · have hbc := h2.2 (by omega)
        rcases hin with hactlt | ⟨hacteq, hmm⟩
        · rw [hact] at hactlt
          exact absurd hactlt (by simpa using hbc.1)
        · rw [hact] at hacteq
          have hbcm := hbc.2 hacteq
          rcases hmm with ⟨hma, hmc⟩ | ⟨hmeq, hidlt⟩
          · rw [hmsg] at hma
            exact absurd hmc (hbcm.1 hma)
          · rw [hmsg] at hmeq
            rw [hid] at hidlt
            exact absurd hidlt (by simpa using hbcm.2 hmeq)
  · exact Bool.not_eq_true _ |>.mp hac

theorem winnerStep_pid {pid : Nat} {acc : Option Session} {s : Session} {m : Session}
    (hacc : ∀ a, acc = some a → a.pid = pid)
    (h : winnerStep pid acc s = some m) : m.pid = pid := by
  unfold winnerStep at h
  by_cases hs : s.pid = pid
  · simp only [hs, if_true] at h
    cases acc with
    | none => cases h; exact hs
    | some a =>
        by_cases hb : is_better_session s a = true
        · simp [hb] at h
          cases h; exact hs
        · simp [Bool.not_eq_true _ |>.mp hb] at h
          cases h; exact hacc _ rfl
  · simp only [hs, if_false] at h
    exact hacc m h

theorem dedupe_foldl_pid {pid : Nat} :
    ∀ (l : List Session) (acc : Option Session),
    (∀ a, acc = some a → a.pid = pid) →
    ∀ m, l.foldl (winnerStep pid) acc = some m → m.pid = pid := by
  intro l
  induction l with
  | nil => intro acc hacc m h; exact hacc m h
  | cons s rest ih =>
      intro acc hacc m h
      simp only [List.foldl_cons] at h
      refine ih (winnerStep pid acc s) ?_ m h
      intro a ha
      exact winnerStep_pid hacc ha

theorem dedupe_foldl_mem {pid : Nat} :
    ∀ (l : List Session) (acc : Option Session) (m : Session),
    l.foldl (winnerStep pid) acc = some m →
    acc = some m ∨ m ∈ l := by
  intro l
  induction l with
  | nil => intro acc m h; exact Or.inl h
  | cons s rest ih =>
      intro acc m h
      simp only [List.foldl_cons] at h
      rcases ih (winnerStep pid acc s) m h with hacc | hmem
      · unfold winnerStep at hacc
        by_cases hs : s.pid = pid
        · simp only [hs, if_true] at hacc
          cases acc with
          | none => cases hacc; exact Or.inr (List.mem_cons_self _ _)
          | some a =>
              by_cases hb : is_better_session s a = true
              · simp [hb] at hacc
                cases hacc; exact Or.inr (List.mem_cons_self _ _)
              · simp [Bool.not_eq_true _ |>.mp hb] at hacc
                cases hacc; exact Or.inl rfl
        · simp only [hs, if_false] at hacc
          exact Or.inl hacc
      · exact Or.inr (List.mem_cons_of_mem _ hmem)

theorem dedupe_foldl_none_iff {pid : Nat} :
    ∀ (l : List Session) (acc : Option Session),
    (l.foldl (winnerStep pid) acc = none ↔ acc = none ∧ ∀ s ∈ l, s.pid ≠ pid) := by
  intro l
  induction l with
  | nil => intro acc; simp
  | cons s rest ih =>
      intro acc
      simp only [List.foldl_cons]
      rw [ih]
      constructor
      · rintro ⟨hstep, hrest⟩
        unfold winnerStep at hstep
        by_cases hs : s.pid = pid
        · simp only [hs, if_true] at hstep
          cases acc with
          | none => simp at hstep
          | some a =>
              by_cases hb : is_better_session s a = true
              · simp [hb] at hstep
              · simp [Bool.not_eq_true _ |>.mp hb] at hstep
        · simp only [hs, if_false] at hstep
          refine ⟨hstep, ?_⟩
          intro t ht
          rcases List.mem_cons.mp ht with rfl | ht'
          · exact hs
          · exact hrest t ht'
      · rintro ⟨hacc, hall⟩
        have hs : s.pid ≠ pid := hall s (List.mem_cons_self _ _)
        constructor
        · unfold winnerStep
          simp [hs, hacc]
        · intro t ht
          exact hall t (List.mem_cons_of_mem _ ht)

theorem dedupe_foldl_acc_not_better {pid : Nat} :
    ∀ (l : List Session) (acc : Option Session) (a m : Session),
    acc = some a → l.foldl (winnerStep pid) acc = some m →
    is_better_session a m = false := by
  intro l
  induction l with
  | nil =>
      intro acc a m hacc h
      rw [hacc] at h
      cases h
      exact Bool.not_eq_true _ |>.mp (fun hh =>
        Bool.false_ne_true ((is_better_session_asymm hh).symm.trans hh))
  | cons s rest ih =>
      intro acc a m hacc h
      simp only [List.foldl_cons] at h
      subst hacc
      unfold winnerStep at h
      by_cases hs : s.pid = pid
      · simp only [hs, if_true] at h
        by_cases hb : is_better_session s a = true
        · simp only [hb, if_true] at h
          have hsm := ih (some s) s m rfl h
          -- a < s ≤ m, so a is not better than m
          by_cases ham : is_better_session a m = true
          · rw [is_better_session_trans hb ham] at hsm
            simp at hsm
          · exact Bool.not_eq_true _ |>.mp ham
        · simp only [hb, if_false] at h
          simp at h
          exact ih (some a) a m rfl h
      · simp only [hs, if_false] at h
        exact ih (some a) a m rfl h

theorem dedupe_foldl_max {pid : Nat} :
    ∀ (l : List Session) (acc : Option Session) (m : Session),
    l.foldl (winnerStep pid) acc = some m →
    ∀ t ∈ l, t.pid = pid → is_better_session t m = false := by
  intro l
  induction l with
  | nil => intro acc m _ t ht; exact absurd ht (List.not_mem_nil t)
  | cons s rest ih =>
      intro acc m h t ht htp
      simp only [List.foldl_cons] at h
      rcases List.mem_cons.mp ht with rfl | ht'
      · -- t is the head s
        unfold winnerStep at h
        simp only [htp, if_true] at h
        cases acc with
        | none =>
            exact dedupe_foldl_acc_not_better rest (some t) t m rfl h
        | some a =>
            by_cases hb : is_better_session t a = true
            · simp only [hb, if_true] at h
              exact dedupe_foldl_acc_not_better rest (some t) t m rfl h
            · simp only [hb, if_false] at h
              simp at h
              have ham := dedupe_foldl_acc_not_better rest (some a) a m rfl h
              exact is_better_session_not_trans (Bool.not_eq_true _ |>.mp hb) ham
      · exact ih (winnerStep pid acc s) m h t ht' htp

theorem dedupe_winner_maximal {l : List Session} {pid : Nat} {m : Session}
    (h : dedupe_winner l pid = some m) :
    m ∈ l ∧ m.pid = pid ∧ ∀ t ∈ l, t.pid = pid → is_better_session t m = false := by
  refine ⟨?_, ?_, dedupe_foldl_max l none m h⟩
  · rcases dedupe_foldl_mem l none m h with hacc | hmem
    · cases hacc
    · exact hmem
  · exact dedupe_foldl_pid l none (by intro a ha; cases ha) m h

/-- C6. Deduplication by pid is NOT order-independent for every input
list: two distinct sessions that share the pid and agree on all four
comparison keys (status priority, activity timestamp, presence of a last
message, id) but differ elsewhere (here: project name) produce different
winners depending on input order, because `is_better_session` returns
false in both directions and the first arrival is kept. -/
theorem dedupe_by_pid_not_order_independent :
    dedupe_winner [baseSession, baseSessionVariant] 1 = some baseSession ∧
    dedupe_winner [baseSessionVariant, baseSession] 1 = some baseSessionVariant ∧
    List.Perm [baseSession, baseSessionVariant] [baseSessionVariant, baseSession] ∧
    baseSession ≠ baseSessionVariant := by
  refine ⟨by decide, by decide, List.Perm.swap baseSessionVariant baseSession [], by decide⟩

/-- C6 (amended). For every list of sessions in which no two distinct
sessions sharing the given pid agree on all four comparison keys (in
particular whenever ids are distinct per pid), `dedupe_sessions_by_pid`
keeps exactly one session per occurring pid, the winner is independent of
the ordering of the input list, and the winner is maximal under
`is_better_session` (higher status priority, then newer activity
timestamp, then presence of a last message, then higher session id). -/
theorem dedupe_by_pid_order_independent (l₁ l₂ : List Session) (pid : Nat)
    (hperm : l₁.Perm l₂)
    (hinj : ∀ s t, s ∈ l₁ → t ∈ l₁ → s.pid = pid → t.pid = pid → sameKey s t → s = t) :
    dedupe_winner l₁ pid = dedupe_winner l₂ pid ∧
    ((dedupe_winner l₁ pid).isSome ↔ ∃ s ∈ l₁, s.pid = pid) ∧
    (∀ m, dedupe_winner l₁ pid = some m →
      m ∈ l₁ ∧ m.pid = pid ∧
        ∀ t ∈ l₁, t.pid = pid → is_better_session t m = false) := by
  refine ⟨?_, ?_, fun m h => dedupe_winner_maximal h⟩
  · cases h₁ : dedupe_winner l₁ pid with
    | none =>
        cases h₂ : dedupe_winner l₂ pid with
        | none => rfl
        | some m₂ =>
            have hempty := (dedupe_foldl_none_iff l₁ none).mp h₁
            have hmax₂ := dedupe_winner_maximal h₂
            exact absurd hmax₂.2.1
              (hempty.2 m₂ (hperm.symm.subset hmax₂.1))
    | some m₁ =>
        cases h₂ : dedupe_winner l₂ pid with
        | none =>
            have hempty := (dedupe_foldl_none_iff l₂ none).mp h₂
            have hmax₁ := dedupe_winner_maximal h₁
            exact absurd hmax₁.2.1
              (hempty.2 m₁ (hperm.subset hmax₁.1))
        | some m₂ =>
            have hmax₁ := dedupe_winner_maximal h₁
            have hmax₂ := dedupe_winner_maximal h₂
            have hm₂l₁ : m₂ ∈ l₁ := hperm.symm.subset hmax₂.1
            have hm₁l₂ : m₁ ∈ l₂ := hperm.subset hmax₁.1
            have h12 : is_better_session m₁ m₂ = false :=
              hmax₂.2.2 m₁ hm₁l₂ hmax₁.2.1
            have h21 : is_better_session m₂ m₁ = false :=
              hmax₁.2.2 m₂ hm₂l₁ hmax₂.2.1
            have hkey := is_better_session_eq_key h12 h21
            rw [hinj m₁ m₂ hmax₁.1 hm₂l₁ hmax₁.2.1 hmax₂.2.1 hkey]
  · constructor
    · intro hsome
      cases h₁ : dedupe_winner l₁ pid with
      | none => rw [h₁] at hsome; simp at hsome
      | some m =>
          have hmax := dedupe_winner_maximal h₁
          exact ⟨m, hmax.1, hmax.2.1⟩
    · rintro ⟨s, hs, hsp⟩
      cases h₁ : dedupe_winner l₁ pid with
      | none =>
          have hempty := (dedupe_foldl_none_iff l₁ none).mp h₁
          exact absurd hsp (hempty.2 s hs)
      | some m => simp

/-- C6 witness: the order-independence theorem applied to the singleton
list containing `baseSession` and its reflexive permutation. -/
theorem dedupe_by_pid_order_independent_witness :
    dedupe_winner [baseSession] 1 = dedupe_winner [baseSession] 1 ∧
    ((dedupe_winner [baseSession] 1).isSome ↔ ∃ s ∈ [baseSession], s.pid = 1) ∧
    (∀ m, dedupe_winner [baseSession] 1 = some m →
      m ∈ [baseSession] ∧ m.pid = 1 ∧
        ∀ t ∈ [baseSession], t.pid = 1 → is_better_session t m = false) :=
  dedupe_by_pid_order_independent [baseSession] [baseSession] 1 (List.Perm.refl _)
    (by
      intro s t hs ht _ _ _
      simp only [List.mem_singleton] at hs ht
      rw [hs, ht])

theorem strLt_not_lt_trans {a b c : String} (h1 : strLt a b = false)
    (h2 : strLt b c = false) : strLt a c = false := by
  by_cases hac : strLt a c = true
  · by_cases hba : strLt b a = true
    · rw [strLt_trans hba hac] at h2
      simp at h2
    · rw [strLt_eq_of_not_lt h1 (Bool.not_eq_true _ |>.mp hba)] at hac
      rw [hac] at h2
      simp at h2
  · exact Bool.not_eq_true _ |>.mp hac

theorem foreground_le_total (a b : Session) :
    foreground_le a b = true ∨ foreground_le b a = true := by
  unfold foreground_le
  by_cases hp : status_sort_priority a.status = status_sort_priority b.status
  · by_cases hab : strLt a.last_activity_at b.last_activity_at = true
    · right
      simp [hp, strLt_asymm hab]
    · left
      simp [hp]
      exact Bool.not_eq_true _ |>.mp hab
  · rcases Nat.lt_or_ge (status_sort_priority a.status)
        (status_sort_priority b.status) with h | h
    · left; simp [hp, h]
    · right
      have hne : ¬ status_sort_priority b.status = status_sort_priority a.status := by
        omega
      have hlt : status_sort_priority b.status < status_sort_priority a.status := by
        omega
      simp only [hne, ne_eq, not_false_eq_true, if_true, decide_eq_true_eq]
      exact hlt

theorem foreground_le_trans (a b c : Session) (h1 : foreground_le a b = true)
    (h2 : foreground_le b c = true) : foreground_le a c = true := by
  unfold foreground_le at *
  by_cases hpab : status_sort_priority a.status = status_sort_priority b.status
  · by_cases hpbc : status_sort_priority b.status = status_sort_priority c.status
    · simp only [hpab, hpbc, ne_eq, not_true_eq_false, if_false, ite_not,
        if_true, eq_self_iff_true] at h1 h2
      simp only [hpab.trans hpbc, ne_eq, not_true_eq_false, ite_not, if_true,
        if_false, eq_self_iff_true]
      simp only [Bool.not_eq_true', Bool.not_eq_false] at h1 h2 ⊢
      exact strLt_not_lt_trans h1 h2
    · have h2' : status_sort_priority b.status < status_sort_priority c.status := by
        simpa [hpbc] using h2
      have hpac : ¬ status_sort_priority a.status = status_sort_priority c.status := by
        omega
      simp only [hpac, ne_eq, not_false_eq_true, if_true, decide_eq_true_eq]
      omega
  · have h1' : status_sort_priority a.status < status_sort_priority b.status := by
      simpa [hpab] using h1
    by_cases hpbc : status_sort_priority b.status = status_sort_priority c.status
    · have hpac : ¬ status_sort_priority a.status = status_sort_priority c.status := by
        omega
      simp only [hpac, ne_eq, not_false_eq_true, if_true, decide_eq_true_eq]
      omega
    · have h2' : status_sort_priority b.status < status_sort_priority c.status := by
        simpa [hpbc] using h2
      have hpac : ¬ status_sort_priority a.status = status_sort_priority c.status := by
        omega
      simp only [hpac, ne_eq, not_false_eq_true, if_true, decide_eq_true_eq]
      omega

theorem background_le_total (a b : Session) :
    background_le a b = true ∨ background_le b a = true := by
  unfold background_le
  by_cases hp : agent_sort_key a.agent_type = agent_sort_key b.agent_type
  · by_cases hab : strLt a.last_activity_at b.last_activity_at = true
    · right
      simp [hp, strLt_asymm hab]
    · left
      simp [hp]
      exact Bool.not_eq_true _ |>.mp hab
  · rcases Nat.lt_or_ge (agent_sort_key a.agent_type)
        (agent_sort_key b.agent_type) with h | h
    · left; simp [hp, h]
    · right
      have hne : ¬ agent_sort_key b.agent_type = agent_sort_key a.agent_type := by
        omega
      have hlt : agent_sort_key b.agent_type < agent_sort_key a.agent_type := by
        omega
      simp only [hne, ne_eq, not_false_eq_true, if_true, decide_eq_true_eq]
      exact hlt

theorem background_le_trans (a b c : Session) (h1 : background_le a b = true)
    (h2 : background_le b c = true) : background_le a c = true := by
  unfold background_le at *
  by_cases hpab : agent_sort_key a.agent_type = agent_sort_key b.agent_type
  · by_cases hpbc : agent_sort_key b.agent_type = agent_sort_key c.agent_type
    · simp only [hpab, hpbc, ne_eq, not_true_eq_false, if_false, ite_not,
        if_true, eq_self_iff_true] at h1 h2
      simp only [hpab.trans hpbc, ne_eq, not_true_eq_false, ite_not, if_true,
        if_false, eq_self_iff_true]
      simp only [Bool.not_eq_true', Bool.not_eq_false] at h1 h2 ⊢
      exact strLt_not_lt_trans h1 h2
    · have h2' : agent_sort_key b.agent_type < agent_sort_key c.agent_type := by
        simpa [hpbc] using h2
      have hpac : ¬ agent_sort_key a.agent_type = agent_sort_key c.agent_type := by
        omega
      simp only [hpac, ne_eq, not_false_eq_true, if_true, decide_eq_true_eq]
      omega
  · have h1' : agent_sort_key a.agent_type < agent_sort_key b.agent_type := by
      simpa [hpab] using h1
    by_cases hpbc : agent_sort_key b.agent_type = agent_sort_key c.agent_type
    · have hpac : ¬ agent_sort_key a.agent_type = agent_sort_key c.agent_type := by
        omega
      simp only [hpac, ne_eq, not_false_eq_true, if_true, decide_eq_true_eq]
      omega
    · have h2' : agent_sort_key b.agent_type < agent_sort_key c.agent_type := by
        simpa [hpbc] using h2
      have hpac : ¬ agent_sort_key a.agent_type = agent_sort_key c.agent_type := by
        omega
      simp only [hpac, ne_eq, not_false_eq_true, if_true, decide_eq_true_eq]
      omega

theorem foreground_le_spec {a b : Session} (h : foreground_le a b = true) :
    status_sort_priority a.status ≤ status_sort_priority b.status ∧
    (status_sort_priority a.status = status_sort_priority b.status →
      strLt a.last_activity_at b.last_activity_at = false) := by
  unfold foreground_le at h
  by_cases hp : status_sort_priority a.status = status_sort_priority b.status
  · simp only [hp, ne_eq, not_true_eq_false, if_false, ite_not, if_true,
      eq_self_iff_true, Bool.not_eq_true', Bool.not_eq_false] at h
    exact ⟨le_of_eq hp, fun _ => h⟩
  · simp only [hp, ne_eq, not_false_eq_true, if_true, decide_eq_true_eq] at h
    exact ⟨le_of_lt h, fun hh => absurd hh hp⟩

theorem background_le_spec {a b : Session} (h : background_le a b = true) :
    agent_sort_key a.agent_type ≤ agent_sort_key b.agent_type ∧
    (agent_sort_key a.agent_type = agent_sort_key b.agent_type →
      strLt a.last_activity_at b.last_activity_at = false) := by
  unfold background_le at h
  by_cases hp : agent_sort_key a.agent_type = agent_sort_key b.agent_type
  · simp only [hp, ne_eq, not_true_eq_false, if_false, ite_not, if_true,
      eq_self_iff_true, Bool.not_eq_true', Bool.not_eq_false] at h
    exact ⟨le_of_eq hp, fun _ => h⟩
  · simp only [hp, ne_eq, not_false_eq_true, if_true, decide_eq_true_eq] at h
    exact ⟨le_of_lt h, fun hh => absurd hh hp⟩

/-- C7. `get_all_sessions` partitions the merged session list by the
`is_background` flag and orders each part: the foreground list is a
permutation of the non-background sessions with every adjacent pair
nondecreasing in status priority and, on equal priorities, nonincreasing
in activity timestamp (newest first); the background list is a
permutation of the background sessions ordered by agent type in the order
Claude, Codex, OpenCode, with ties broken by activity timestamp
descending. -/
theorem get_all_sessions_partition_and_order (l : List Session) :
    ((get_all_sessions l).sessions.Perm (l.filter fun s => !s.is_background)) ∧
    ((get_all_sessions l).background_sessions.Perm
      (l.filter fun s => s.is_background)) ∧
    (∀ s ∈ (get_all_sessions l).sessions, s.is_background = false) ∧
    (∀ s ∈ (get_all_sessions l).background_sessions, s.is_background = true) ∧
    List.Chain' (fun a b =>
      status_sort_priority a.status ≤ status_sort_priority b.status ∧
      (status_sort_priority a.status = status_sort_priority b.status →
        strLt a.last_activity_at b.last_activity_at = false))
      (get_all_sessions l).sessions ∧
    List.Chain' (fun a b =>
      agent_sort_key a.agent_type ≤ agent_sort_key b.agent_type ∧
      (agent_sort_key a.agent_type = agent_sort_key b.agent_type →
        strLt a.last_activity_at b.last_activity_at = false))
      (get_all_sessions l).background_sessions := by
  haveI instTotF : IsTotal Session (fun a b => foreground_le a b = true) :=
    ⟨foreground_le_total⟩
  haveI instTransF : IsTrans Session (fun a b => foreground_le a b = true) :=
    ⟨foreground_le_trans⟩
  haveI instTotB : IsTotal Session (fun a b => background_le a b = true) :=
    ⟨background_le_total⟩
  haveI instTransB : IsTrans Session (fun a b => background_le a b = true) :=
    ⟨background_le_trans⟩
  have hpermF := List.perm_insertionSort (fun a b => foreground_le a b = true)
    (l.filter fun s => !s.is_background)
  have hpermB := List.perm_insertionSort (fun a b => background_le a b = true)
    (l.filter fun s => s.is_background)
  have hsortF := List.sorted_insertionSort (fun a b => foreground_le a b = true)
    (l.filter fun s => !s.is_background)
  have hsortB := List.sorted_insertionSort (fun a b => background_le a b = true)
    (l.filter fun s => s.is_background)
  refine ⟨hpermF, hpermB, ?_, ?_, ?_, ?_⟩
  · intro s hs
    have := List.mem_filter.mp (hpermF.subset hs)
    simpa using this.2
  · intro s hs
    have := List.mem_filter.mp (hpermB.subset hs)
    simpa using this.2
  · exact List.Pairwise.chain' (List.Pairwise.imp (fun h => foreground_le_spec h) hsortF)
  · exact List.Pairwise.chain' (List.Pairwise.imp (fun h => background_le_spec h) hsortB)

/-- C7 witness: the partition-and-order theorem applied to the singleton
list containing `baseSession`, with the membership conjunct evaluated at
that concrete session. -/
theorem get_all_sessions_partition_and_order_witness :
    baseSession.is_background = false ∧
    ((get_all_sessions [baseSession]).sessions.Perm
      ([baseSession].filter fun s => !s.is_background)) :=
  ⟨(get_all_sessions_partition_and_order [baseSession]).2.2.1 baseSession
      (by decide),
    (get_all_sessions_partition_and_order [baseSession]).1⟩

theorem codex_build_session_is_background (env : Codex.Env)
    (file : Codex.SessionFile) (process : AgentProcess) :
    (Codex.build_session_from_file env file process).is_background =
      Codex.is_background_session
        (Codex.build_session_from_file env file process).project_path
        (Codex.build_session_from_file env file process).last_message := rfl

theorem codex_fallback_session_is_background (env : Codex.Env)
    (process : AgentProcess) :
    (Codex.fallback_session env process).is_background =
      Codex.is_background_session
        (Codex.fallback_session env process).project_path
        (Codex.fallback_session env process).last_message := rfl

theorem codex_sessionsLoop_is_background (env : Codex.Env)
    (files : List Codex.SessionFile) :
    ∀ (procs : List AgentProcess) (used : List Nat) (s : Session),
    s ∈ Codex.sessionsLoop env files procs used →
    s.is_background = Codex.is_background_session s.project_path s.last_message := by
  intro procs
  induction procs with
  | nil => intro used s hs; simp [Codex.sessionsLoop] at hs
  | cons p ps ih =>
      intro used s hs
      unfold Codex.sessionsLoop at hs
      cases ha : Codex.assignIdx files used p with
      | some q =>
          rw [ha] at hs
          rcases List.mem_cons.mp hs with rfl | hs'
          · exact codex_build_session_is_background env q.2 p
          · exact ih (q.1 :: used) s hs'
      | none =>
          rw [ha] at hs
          rcases List.mem_cons.mp hs with rfl | hs'
          · exact codex_fallback_session_is_background env p
          · exact ih used s hs'

/-- C10. A Codex session is background iff its resolved project path is
exactly "/" and its last message is absent or consists only of whitespace
characters; every Codex session with a non-root project path is
foreground regardless of its last message. Both the file-built and the
synthesized fallback sessions are covered. -/
theorem codex_is_background_iff :
    (∀ (project_path : String) (last_message : Option String),
      Codex.is_background_session project_path last_message = true ↔
        (project_path = "/" ∧ (last_message = none ∨
          ∃ m, last_message = some m ∧
            (m.data.all fun c => c.isWhitespace) = true))) ∧
    (∀ (project_path : String) (last_message : Option String),
      project_path ≠ "/" →
      Codex.is_background_session project_path last_message = false) ∧
    (∀ (env : Codex.Env) (files : List Codex.SessionFile)
        (procs : List AgentProcess) (s : Session),
      s ∈ Codex.get_codex_sessions env files procs →
      s.is_background = Codex.is_background_session s.project_path s.last_message) := by
  refine ⟨?_, ?_, ?_⟩
  · intro project_path last_message
    unfold Codex.is_background_session
    by_cases hp : project_path = "/"
    · cases last_message with
      | none => simp [hp]
      | some m => simp [hp]
    · simp [hp]
  · intro project_path last_message hp
    unfold Codex.is_background_session
    simp [hp]
  · intro env files procs s hs
    exact codex_sessionsLoop_is_background env files procs [] s hs

/-- C10 witness: the session-level equation applied to the fallback
session produced for a cwd-less process with no session files. -/
theorem codex_is_background_iff_witness :
    (Codex.fallback_session codexEnvW codexProcW).is_background =
      Codex.is_background_session
        (Codex.fallback_session codexEnvW codexProcW).project_path
        (Codex.fallback_session codexEnvW codexProcW).last_message :=
  codex_is_background_iff.2.2 codexEnvW [] [codexProcW]
    (Codex.fallback_session codexEnvW codexProcW)
    (by
      show Codex.fallback_session codexEnvW codexProcW ∈
        Codex.sessionsLoop codexEnvW [] [codexProcW] []
      unfold Codex.sessionsLoop Codex.assignIdx
      simp [codexProcW, Codex.fallbackQueue])

theorem find?_sorted_desc_max {l : List (Nat × Codex.SessionFile)}
    {pred : Nat × Codex.SessionFile → Bool} {q : Nat × Codex.SessionFile}
    (hsort : List.Pairwise (fun a b => b.2.modified ≤ a.2.modified) l)
    (hfind : l.find? pred = some q) :
    pred q = true ∧ q ∈ l ∧
      ∀ r ∈ l, pred r = true → r.2.modified ≤ q.2.modified := by
  induction l with
  | nil => simp at hfind
  | cons h t ih =>
      cases hp : pred h with
      | true =>
          rw [List.find?_cons_of_pos _ hp] at hfind
          cases hfind
          refine ⟨hp, List.mem_cons_self _ _, ?_⟩
          intro r hr _
          rcases List.mem_cons.mp hr with rfl | hr'
          · exact le_refl _
          · exact (List.pairwise_cons.mp hsort).1 r hr'
      | false =>
          rw [List.find?_cons_of_neg _ (by simp [hp])] at hfind
          have ihres := ih (List.pairwise_cons.mp hsort).2 hfind
          refine ⟨ihres.1, List.mem_cons_of_mem _ ihres.2.1, ?_⟩
          intro r hr hpr
          rcases List.mem_cons.mp hr with rfl | hr'
          · rw [hp] at hpr; cases hpr
          · exact ihres.2.2 r hr' hpr

theorem codex_cwdQueue_mem (files : List Codex.SessionFile) (c : String)
    (q : Nat × Codex.SessionFile) :
    q ∈ Codex.cwdQueue files c ↔ q ∈ files.enum ∧ q.2.cwd = some c := by
  unfold Codex.cwdQueue
  rw [(List.perm_insertionSort _ _).mem_iff, List.mem_filter]
  simp

theorem codex_fallbackQueue_mem (files : List Codex.SessionFile)
    (q : Nat × Codex.SessionFile) :
    q ∈ Codex.fallbackQueue files ↔ q ∈ files.enum := by
  unfold Codex.fallbackQueue
  rw [(List.perm_insertionSort _ _).mem_iff]

theorem codex_cwdQueue_sorted (files : List Codex.SessionFile) (c : String) :
    List.Pairwise (fun a b => b.2.modified ≤ a.2.modified)
      (Codex.cwdQueue files c) := by
  haveI : IsTotal (Nat × Codex.SessionFile)
      (fun a b => b.2.modified ≤ a.2.modified) :=
    ⟨fun a b => Nat.le_total b.2.modified a.2.modified⟩
  haveI : IsTrans (Nat × Codex.SessionFile)
      (fun a b => b.2.modified ≤ a.2.modified) :=
    ⟨fun _ _ _ hab hbc => le_trans hbc hab⟩
  exact List.sorted_insertionSort _ _

theorem codex_fallbackQueue_sorted (files : List Codex.SessionFile) :
    List.Pairwise (fun a b => b.2.modified ≤ a.2.modified)
      (Codex.fallbackQueue files) := by
  haveI : IsTotal (Nat × Codex.SessionFile)
      (fun a b => b.2.modified ≤ a.2.modified) :=
    ⟨fun a b => Nat.le_total b.2.modified a.2.modified⟩
  haveI : IsTrans (Nat × Codex.SessionFile)
      (fun a b => b.2.modified ≤ a.2.modified) :=
    ⟨fun _ _ _ hab hbc => le_trans hbc hab⟩
  exact List.sorted_insertionSort _ _

theorem codex_fallback_find_spec {files : List Codex.SessionFile}
    {used : List Nat} {q : Nat × Codex.SessionFile}
    (h : (Codex.fallbackQueue files).find? (fun q => !(used.contains q.1)) = some q) :
    q ∈ files.enum ∧ used.contains q.1 = false ∧
      ∀ r ∈ files.enum, used.contains r.1 = false →
        r.2.modified ≤ q.2.modified := by
  have hmax := find?_sorted_desc_max (codex_fallbackQueue_sorted files) h
  refine ⟨(codex_fallbackQueue_mem files q).mp hmax.2.1, by simpa using hmax.1, ?_⟩
  intro r hr hru
  exact hmax.2.2 r ((codex_fallbackQueue_mem files r).mpr hr) (by simpa using hru)

theorem codex_sessionsLoop_length (env : Codex.Env)
    (files : List Codex.SessionFile) :
    ∀ (procs : List AgentProcess) (used : List Nat),
    (Codex.sessionsLoop env files procs used).length = procs.length := by
  intro procs
  induction procs with
  | nil => intro used; rfl
  | cons p ps ih =>
      intro used
      unfold Codex.sessionsLoop
      cases Codex.assignIdx files used p with
      | some q => simp [ih]
      | none => simp [ih]

/-- C8 (amended). Codex matching never consults the process's open
session file: it prefers, in order, (1) the newest unused file whose
declared working directory equals the process's cwd, else (2) the newest
remaining unused file globally; and every Codex process receives some
session (`get_codex_sessions` yields exactly one session per process,
synthesizing a fallback when no file can be assigned). -/
theorem codex_matching_spec :
    (∀ (env : Codex.Env) (files : List Codex.SessionFile)
        (procs : List AgentProcess),
      (Codex.get_codex_sessions env files procs).length = procs.length) ∧
    (∀ (files : List Codex.SessionFile) (used : List Nat) (p : AgentProcess)
        (q : Nat × Codex.SessionFile),
      Codex.assignIdx files used p = some q →
      q ∈ files.enum ∧ used.contains q.1 = false ∧
        ((∃ c, p.cwd = some c ∧ q.2.cwd = some c ∧
            ∀ r ∈ files.enum, r.2.cwd = some c → used.contains r.1 = false →
              r.2.modified ≤ q.2.modified) ∨
          ((p.cwd = none ∨ ∃ c, p.cwd = some c ∧
              ∀ r ∈ files.enum, r.2.cwd = some c → used.contains r.1 = true) ∧
            ∀ r ∈ files.enum, used.contains r.1 = false →
              r.2.modified ≤ q.2.modified))) ∧
    (∀ (files : List Codex.SessionFile) (used : List Nat) (p : AgentProcess),
      Codex.assignIdx files used p = none →
      ∀ r ∈ files.enum, used.contains r.1 = true) := by
  refine ⟨?_, ?_, ?_⟩
  · intro env files procs
    exact codex_sessionsLoop_length env files procs []
  · intro files used p q h
    unfold Codex.assignIdx at h
    cases hc : p.cwd with
    | none =>
        rw [hc] at h
        simp only at h
        have := codex_fallback_find_spec h
        exact ⟨this.1, this.2.1, Or.inr ⟨Or.inl rfl, this.2.2⟩⟩
    | some c =>
        rw [hc] at h
        simp only at h
        cases hq : (Codex.cwdQueue files c).find? (fun q => !(used.contains q.1)) with
        | some q' =>
            rw [hq] at h
            injection h with h'
            rw [h'] at hq
            have hmax := find?_sorted_desc_max (codex_cwdQueue_sorted files c) hq
            have hqmem := (codex_cwdQueue_mem files c q).mp hmax.2.1
            refine ⟨hqmem.1, by simpa using hmax.1, Or.inl ⟨c, rfl, hqmem.2, ?_⟩⟩
            intro r hr hrc hru
            exact hmax.2.2 r ((codex_cwdQueue_mem files c r).mpr ⟨hr, hrc⟩)
              (by simpa using hru)
        | none =>
            rw [hq] at h
            have hcwdall : ∀ r ∈ files.enum, r.2.cwd = some c →
                used.contains r.1 = true := by
              intro r hr hrc
              have := List.find?_eq_none.mp hq r
                ((codex_cwdQueue_mem files c r).mpr ⟨hr, hrc⟩)
              simpa using this
            have := codex_fallback_find_spec h
            exact ⟨this.1, this.2.1, Or.inr ⟨Or.inr ⟨c, rfl, hcwdall⟩, this.2.2⟩⟩
  · intro files used p h
    unfold Codex.assignIdx at h
    have hfb : (Codex.fallbackQueue files).find? (fun q => !(used.contains q.1)) = none := by
      cases hc : p.cwd with
      | none => rw [hc] at h; simpa using h
      | some c =>
          rw [hc] at h
          simp only at h
          cases hq : (Codex.cwdQueue files c).find? (fun q => !(used.contains q.1)) with
          | some q' => rw [hq] at h; cases h
          | none => rw [hq] at h; simpa using h
    intro r hr
    have := List.find?_eq_none.mp hfb r ((codex_fallbackQueue_mem files r).mpr hr)
    simpa using this

/-- C8 witness: the assignment lemmas applied to a process with no
working directory and no session files: no file is assignable, and the
process still receives exactly one (fallback) session. -/
theorem codex_matching_spec_witness :
    (Codex.get_codex_sessions codexEnvW [] [codexProcW]).length = 1 ∧
    (∀ r ∈ ([] : List Codex.SessionFile).enum,
      ([] : List Nat).contains r.1 = true) :=
  ⟨codex_matching_spec.1 codexEnvW [] [codexProcW],
    codex_matching_spec.2.2 [] [] codexProcW (by decide)⟩

/-- C8. The claim's preference (1) — the process's currently open session
file — is not implemented: `get_codex_sessions` never consults
`active_session_file`. Concretely, a process whose open session file is
the older file `p0.jsonl` (resolvable: it is among the collected files)
is assigned the newer cwd-matching file `p1.jsonl` instead. -/
theorem codex_open_file_not_preferred :
    codexProcOpen.active_session_file = some codexFileA.path ∧
    ((Codex.get_codex_sessions codexEnvW [codexFileA, codexFileB]
      [codexProcOpen]).map fun s => s.id) = ["p1"] ∧
    Codex.pathFileStem codexFileA.path = some "p0" ∧
    ("p1" : String) ≠ "p0" := by
  refine ⟨rfl, by decide, by decide, by decide⟩

theorem message_is_stale_for_cpu_false_iff (env : ClaudeEnv) (t : String) :
    message_is_stale_for_cpu env t = false ↔
      ∃ age, env.ageOf t = some age ∧ age ≤ 30 := by
  unfold message_is_stale_for_cpu
  cases h : env.ageOf t with
  | none => simp
  | some age => simp [not_lt]

/-- C3. `find_session_for_process` is the pre-override session with the
final CPU override applied, and that override turns a `Waiting` session
into `Processing` exactly when the process CPU exceeds 15% and the last
message's age is at most 30 seconds (not stale); a session in any other
status passes through unchanged. -/
theorem claude_cpu_override_characterization :
    (∀ (env : ClaudeEnv) (files : List JsonlFileEntry) (project_path : String)
        (process : AgentProcess) (index : Nat) (agent_type : AgentType),
      find_session_for_process env files project_path process index agent_type =
        (pre_cpu_session env files project_path process index agent_type).map
          (cpu_override env process.cpu_usage)) ∧
    (∀ (env : ClaudeEnv) (cpu : Rat) (s : Session),
      s.status = SessionStatus.Waiting →
      ((cpu_override env cpu s).status = SessionStatus.Processing ↔
        (cpu > 15 ∧ ∃ age, env.ageOf s.last_activity_at = some age ∧ age ≤ 30))) ∧
    (∀ (env : ClaudeEnv) (cpu : Rat) (s : Session),
      s.status ≠ SessionStatus.Waiting → cpu_override env cpu s = s) := by
  refine ⟨fun _ _ _ _ _ _ => rfl, ?_, ?_⟩
  · intro env cpu s hw
    unfold cpu_override
    by_cases hcpu : cpu > 15
    · by_cases hst : message_is_stale_for_cpu env s.last_activity_at = false
      · rw [if_pos ⟨hw, hcpu, hst⟩]
        exact ⟨fun _ => ⟨hcpu, (message_is_stale_for_cpu_false_iff env _).mp hst⟩,
          fun _ => rfl⟩
      · rw [if_neg (fun hh => hst hh.2.2), hw]
        constructor
        · intro hh
          cases hh
        · rintro ⟨_, hage⟩
          exact absurd ((message_is_stale_for_cpu_false_iff env _).mpr hage) hst
    · rw [if_neg (fun hh => hcpu hh.2.1)]
      rw [hw]
      constructor
      · intro hh; cases hh
      · rintro ⟨hc, _⟩; exact absurd hc hcpu
  · intro env cpu s hw
    unfold cpu_override
    rw [if_neg (fun hh => hw hh.1)]

/-- Claude parser oracle with every timestamp 10 seconds old. -/
def claudeEnvW : ClaudeEnv :=
  { ageOf := fun _ => some 10, githubUrlOf := fun _ => none,
    subagentCountOf := fun _ => 0 }

/-- C3 witness: the override characterization applied to `baseSession`
(status `Waiting`, CPU 20% and a 10-second-old message) and to its
`Stale` variant. -/
theorem claude_cpu_override_characterization_witness :
    ((cpu_override claudeEnvW 20 baseSession).status = SessionStatus.Processing ↔
      ((20 : Rat) > 15 ∧ ∃ age, claudeEnvW.ageOf baseSession.last_activity_at
        = some age ∧ age ≤ 30)) ∧
    cpu_override claudeEnvW 20 { baseSession with status := SessionStatus.Stale } =
      { baseSession with status := SessionStatus.Stale } :=
  ⟨claude_cpu_override_characterization.2.1 claudeEnvW 20 baseSession rfl,
    claude_cpu_override_characterization.2.2 claudeEnvW 20
      { baseSession with status := SessionStatus.Stale } (by decide)⟩

theorem mergeStep_preserves_last_activity (env : ClaudeEnv)
    (primary : JsonlFileEntry) (project_path : String) (pid : Nat)
    (cpu_usage : Rat) (memory_bytes : Nat) (agent_type : AgentType)
    (sess : Session) (f : JsonlFileEntry) :
    (mergeStep env primary project_path pid cpu_usage memory_bytes agent_type
      sess f).last_activity_at = sess.last_activity_at := by
  unfold mergeStep
  repeat' split
  all_goals rfl

theorem merge_more_active_last_activity (env : ClaudeEnv)
    (files : List JsonlFileEntry) (primary : JsonlFileEntry)
    (project_path : String) (pid : Nat) (cpu_usage : Rat) (memory_bytes : Nat)
    (agent_type : AgentType) (session : Session) :
    (merge_more_active env files primary project_path pid cpu_usage
      memory_bytes agent_type session).last_activity_at =
      session.last_activity_at := by
  unfold merge_more_active
  induction files generalizing session with
  | nil => rfl
  | cons f fs ih =>
      rw [List.foldl_cons, ih, mergeStep_preserves_last_activity]

/-- C9. A missing or unparseable last-message timestamp is classified as
stale both in status inference (`message_is_stale` is true) and in the
CPU-override check (`message_is_stale_for_cpu` on the resulting
`last_activity_at` is true), so `find_session_for_process` never applies
the high-CPU Waiting-to-Processing override for such a session. -/
theorem claude_invalid_timestamp_never_overrides
    (env : ClaudeEnv) (files : List JsonlFileEntry) (project_path : String)
    (process : AgentProcess) (index : Nat) (agent_type : AgentType)
    (primary : JsonlFileEntry) (data : ExtractedMessageData)
    (hidx : files.get? index = some primary)
    (hdata : primary.data = some data)
    (hts : data.last_timestamp = none ∨
      ∃ ts, data.last_timestamp = some ts ∧ env.ageOf ts = none)
    (hunk : env.ageOf "Unknown" = none) :
    message_is_stale env data.last_timestamp = true ∧
    message_is_stale_for_cpu env (data.last_timestamp.getD "Unknown") = true ∧
    find_session_for_process env files project_path process index agent_type =
      pre_cpu_session env files project_path process index agent_type := by
  have hbind : data.last_timestamp.bind env.ageOf = none := by
    rcases hts with h | ⟨ts, hts', hage⟩
    · rw [h]; rfl
    · rw [hts']; exact hage
  have h1 : message_is_stale env data.last_timestamp = true := by
    unfold message_is_stale
    rw [hbind]
  have h2 : message_is_stale_for_cpu env (data.last_timestamp.getD "Unknown")
      = true := by
    unfold message_is_stale_for_cpu
    rcases hts with h | ⟨ts, hts', hage⟩
    · rw [h]
      simp only [Option.getD_none]
      rw [hunk]
    · rw [hts']
      simp only [Option.getD_some]
      rw [hage]
  refine ⟨h1, h2, ?_⟩
  have hpre_char : ∀ s,
      pre_cpu_session env files project_path process index agent_type = some s →
      s.last_activity_at = data.last_timestamp.getD "Unknown" := by
    intro s hpre
    unfold pre_cpu_session at hpre
    rw [hidx] at hpre
    have hpre2 : (match parse_session_file env primary project_path process.pid
        process.cpu_usage process.memory_bytes agent_type with
      | none => none
      | some s0 => some (merge_more_active env files primary project_path
          process.pid process.cpu_usage process.memory_bytes agent_type
          { s0 with active_subagent_count := env.subagentCountOf s0.id }))
        = some s := hpre
    cases hp : parse_session_file env primary project_path process.pid
        process.cpu_usage process.memory_bytes agent_type with
    | none =>
        rw [hp] at hpre2
        have hnone : (none : Option Session) = some s := hpre2
        cases hnone
    | some s0 =>
        rw [hp] at hpre2
        have hsome : some (merge_more_active env files primary project_path
            process.pid process.cpu_usage process.memory_bytes agent_type
            { s0 with active_subagent_count := env.subagentCountOf s0.id })
          = some s := hpre2
        injection hsome with hs
        rw [← hs, merge_more_active_last_activity]
        show s0.last_activity_at = data.last_timestamp.getD "Unknown"
        unfold parse_session_file at hp
        rw [hdata] at hp
        have hp2 := congrArg (Option.map Session.last_activity_at) hp
        simp only [Option.map_some'] at hp2
        cases hsid : data.session_id with
        | none =>
            rw [hsid] at hp2
            simp at hp2
        | some sid =>
            rw [hsid] at hp2
            simp only [Option.map_some', Option.some.injEq] at hp2
            exact hp2.symm
  cases hpre : pre_cpu_session env files project_path process index agent_type with
  | none =>
      unfold find_session_for_process
      rw [hpre]
      rfl
  | some s =>
      unfold find_session_for_process
      rw [hpre]
      simp only [Option.map_some']
      have hla := hpre_char s hpre
      unfold cpu_override
      rw [if_neg]
      rintro ⟨_, _, hfalse⟩
      rw [hla, h2] at hfalse
      cases hfalse

/-- C9 witness: the no-override theorem applied to a session file whose
extracted data has no last timestamp, under an oracle for which no string
parses as RFC3339. -/
theorem claude_invalid_timestamp_never_overrides_witness :
    message_is_stale claudeEnvNine claudeDataW.last_timestamp = true ∧
    message_is_stale_for_cpu claudeEnvNine
      (claudeDataW.last_timestamp.getD "Unknown") = true ∧
    find_session_for_process claudeEnvNine [claudeFileW] "/p" codexProcW 0
        AgentType.Claude =
      pre_cpu_session claudeEnvNine [claudeFileW] "/p" codexProcW 0
        AgentType.Claude :=
  claude_invalid_timestamp_never_overrides claudeEnvNine [claudeFileW] "/p"
    codexProcW 0 AgentType.Claude claudeFileW claudeDataW rfl rfl (Or.inl rfl) rfl

/-- C5. The path-to-store-name encoding does not round-trip for every
absolute path free of hidden-folder segments: with two path components
after "Projects", the decoder joins them with a dash instead of a slash. -/
theorem path_roundtrip_fails :
    convert_dir_name_to_path
        (convert_path_to_dir_name "/Users/ozan/Projects/app/sub") ≠
      "/Users/ozan/Projects/app/sub" ∧
    convert_dir_name_to_path
        (convert_path_to_dir_name "/Users/ozan/Projects/app/sub") =
      "/Users/ozan/Projects/app-sub" := by
  constructor
  · decide
  · decide

theorem splitOnChar_ne_nil (sep : Char) : ∀ l : List Char, splitOnChar sep l ≠ []
  | [] => by simp [splitOnChar]
  | c :: rest => by
      by_cases hc : c = sep
      · simp [splitOnChar, hc]
      · simp only [splitOnChar, hc, if_false]
        cases hs : splitOnChar sep rest with
        | nil => simp
        | cons h t => simp

theorem encodePathChars_cons_ne (x : Char) (rest : List Char) (hx : x ≠ '/') :
    encodePathChars (x :: rest) = x :: encodePathChars rest := by
  cases rest with
  | nil => simp [encodePathChars, hx]
  | cons y ys => simp [encodePathChars, hx]

theorem encodePathChars_slash (rest : List Char) (h : rest.head? ≠ some '.') :
    encodePathChars ('/' :: rest) = '-' :: encodePathChars rest := by
  cases rest with
  | nil => rfl
  | cons y ys =>
      have hy : y ≠ '.' := by
        intro hh; rw [hh] at h; exact h rfl
      simp [encodePathChars, hy]

theorem encodePathChars_append_noslash : ∀ (c l : List Char), '/' ∉ c →
    encodePathChars (c ++ l) = c ++ encodePathChars l
  | [], l, _ => rfl
  | x :: xs, l, h => by
      have hx : x ≠ '/' := fun hh => h (by rw [hh]; exact List.mem_cons_self _ _)
      rw [List.cons_append, encodePathChars_cons_ne x (xs ++ l) hx,
        encodePathChars_append_noslash xs l
          (fun hm => h (List.mem_cons_of_mem _ hm))]
      rfl

theorem encodePathChars_noslash (c : List Char) (h : '/' ∉ c) :
    encodePathChars c = c := by
  have := encodePathChars_append_noslash c [] h
  simpa [encodePathChars] using this

theorem joinSep_head (sep : Char) (d : List Char) (t : List (List Char))
    (hd : d ≠ []) : (joinSep sep (d :: t)).head? = d.head? := by
  cases t with
  | nil => rfl
  | cons e ts =>
      cases d with
      | nil => exact absurd rfl hd
      | cons dh dt => rfl

theorem encode_join : ∀ cs : List (List Char), cs ≠ [] →
    (∀ c ∈ cs, c ≠ [] ∧ '/' ∉ c ∧ c.head? ≠ some '.') →
    encodePathChars (joinSep '/' cs) = joinSep '-' cs
  | [], h, _ => absurd rfl h
  | [c], _, hcond => by
      show encodePathChars c = c
      exact encodePathChars_noslash c (hcond c (List.mem_singleton.mpr rfl)).2.1
  | c :: d :: t, _, hcond => by
      have hc := hcond c (List.mem_cons_self _ _)
      have hd := hcond d (List.mem_cons_of_mem _ (List.mem_cons_self _ _))
      show encodePathChars (c ++ '/' :: joinSep '/' (d :: t)) =
        c ++ '-' :: joinSep '-' (d :: t)
      rw [encodePathChars_append_noslash c _ hc.2.1]
      rw [encodePathChars_slash _ (by rw [joinSep_head '/' d t hd.1]; exact hd.2.2)]
      rw [encode_join (d :: t) (by simp)
        (fun x hx => hcond x (List.mem_cons_of_mem _ hx))]

theorem splitOnChar_no_sep : ∀ (sep : Char) (c : List Char), sep ∉ c →
    splitOnChar sep c = [c]
  | _, [], _ => rfl
  | sep, x :: xs, h => by
      have hx : x ≠ sep := fun hh => h (by rw [hh]; exact List.mem_cons_self _ _)
      simp only [splitOnChar, hx, if_false]
      rw [splitOnChar_no_sep sep xs (fun hm => h (List.mem_cons_of_mem _ hm))]

theorem splitOnChar_append : ∀ (sep : Char) (c m : List Char), sep ∉ c →
    splitOnChar sep (c ++ sep :: m) = c :: splitOnChar sep m
  | sep, [], m, _ => by simp [splitOnChar]
  | sep, x :: xs, m, h => by
      have hx : x ≠ sep := fun hh => h (by rw [hh]; exact List.mem_cons_self _ _)
      simp only [List.cons_append, splitOnChar, hx, if_false, List.append_eq]
      rw [splitOnChar_append sep xs m (fun hm => h (List.mem_cons_of_mem _ hm))]

theorem split_join : ∀ cs : List (List Char), cs ≠ [] →
    (∀ c ∈ cs, '-' ∉ c) → splitOnChar '-' (joinSep '-' cs) = cs
  | [], h, _ => absurd rfl h
  | [c], _, hcond => by
      show splitOnChar '-' c = [c]
      exact splitOnChar_no_sep '-' c (hcond c (List.mem_singleton.mpr rfl))
  | c :: d :: t, _, hcond => by
      show splitOnChar '-' (c ++ '-' :: joinSep '-' (d :: t)) = c :: d :: t
      rw [splitOnChar_append '-' c _ (hcond c (List.mem_cons_self _ _))]
      rw [split_join (d :: t) (by simp)
        (fun x hx => hcond x (List.mem_cons_of_mem _ hx))]

theorem joinSep_append (sep : Char) : ∀ (xs ys : List (List Char)), xs ≠ [] →
    ys ≠ [] → joinSep sep (xs ++ ys) = joinSep sep xs ++ sep :: joinSep sep ys
  | [], _, h, _ => absurd rfl h
  | [x], ys, _, hy => by
      cases ys with
      | nil => exact absurd rfl hy
      | cons y yt => rfl
  | x :: x' :: xt, ys, _, hy => by
      have ih := joinSep_append sep (x' :: xt) ys (by simp) hy
      show x ++ sep :: joinSep sep ((x' :: xt) ++ ys) =
        (x ++ sep :: joinSep sep (x' :: xt)) ++ sep :: joinSep sep ys
      rw [ih]
      simp

theorem findProjIdx_append : ∀ (pre : List (List Char)) (proj : List Char)
    (rest : List (List Char)),
    (∀ c ∈ pre, ¬(c = "Projects".data ∨ c = "UnityProjects".data)) →
    (proj = "Projects".data ∨ proj = "UnityProjects".data) →
    findProjIdx (pre ++ proj :: rest) = some pre.length
  | [], proj, rest, _, hp => by simp [findProjIdx, hp]
  | c :: pt, proj, rest, hpre, hp => by
      have hc := hpre c (List.mem_cons_self _ _)
      simp only [List.cons_append, findProjIdx, hc, if_false, List.append_eq]
      rw [findProjIdx_append pt proj rest
        (fun x hx => hpre x (List.mem_cons_of_mem _ hx)) hp]
      rfl

theorem findProjIdx_none : ∀ l : List (List Char),
    (∀ c ∈ l, ¬(c = "Projects".data ∨ c = "UnityProjects".data)) →
    findProjIdx l = none
  | [], _ => rfl
  | c :: t, h => by
      have hc := h c (List.mem_cons_self _ _)
      simp only [findProjIdx, hc, if_false]
      rw [findProjIdx_none t (fun x hx => h x (List.mem_cons_of_mem _ hx))]
      rfl

theorem take_len_append {α : Type} : ∀ (pre : List α) (proj : α) (rest : List α),
    (pre ++ proj :: rest).take (pre.length + 1) = pre ++ [proj]
  | [], proj, rest => by simp
  | c :: pt, proj, rest => by
      simp only [List.cons_append, List.length_cons, List.take_succ_cons]
      rw [take_len_append pt proj rest]

theorem drop_len_append {α : Type} : ∀ (pre : List α) (proj : α) (rest : List α),
    (pre ++ proj :: rest).drop (pre.length + 1) = rest
  | [], proj, rest => by simp
  | c :: pt, proj, rest => by
      simp only [List.cons_append, List.length_cons, List.drop_succ_cons]
      rw [drop_len_append pt proj rest]

theorem map_replace_nodash : ∀ c : List Char, '-' ∉ c →
    c.map (fun ch => if ch = '-' then '/' else ch) = c
  | [], _ => rfl
  | x :: xs, h => by
      have hx : x ≠ '-' := fun hh => h (by rw [hh]; exact List.mem_cons_self _ _)
      simp only [List.map_cons, hx, if_false]
      rw [map_replace_nodash xs (fun hm => h (List.mem_cons_of_mem _ hm))]

theorem map_replace_join : ∀ cs : List (List Char), (∀ c ∈ cs, '-' ∉ c) →
    (joinSep '-' cs).map (fun ch => if ch = '-' then '/' else ch) = joinSep '/' cs
  | [], _ => rfl
  | [c], hcond => map_replace_nodash c (hcond c (List.mem_singleton.mpr rfl))
  | c :: d :: t, hcond => by
      show (c ++ '-' :: joinSep '-' (d :: t)).map _ = c ++ '/' :: joinSep '/' (d :: t)
      rw [List.map_append, map_replace_nodash c (hcond c (List.mem_cons_self _ _)),
        List.map_cons,
        map_replace_join (d :: t) (fun x hx => hcond x (List.mem_cons_of_mem _ hx))]
      simp

theorem joinSep_cons_append (sep : Char) (c p : List Char) (r : List (List Char)) :
    joinSep sep ((c ++ sep :: p) :: r) = joinSep sep (c :: p :: r) := by
  cases r with
  | nil => rfl
  | cons e rt =>
      show (c ++ sep :: p) ++ sep :: joinSep sep (e :: rt) =
        c ++ sep :: (p ++ sep :: joinSep sep (e :: rt))
      simp

theorem projectSegmentsAux_nonhidden : ∀ (rest : List (List Char)) (cur : List Char),
    cur ≠ [] → (∀ n ∈ rest, n ≠ []) →
    projectSegmentsAux rest false cur [] = [joinSep '-' (cur :: rest)]
  | [], cur, hcur, _ => by
      simp only [projectSegmentsAux, hcur, ne_eq, not_false_eq_true, if_true]
      rfl
  | part :: rt, cur, hcur, hall => by
      have hpart : part ≠ [] := hall part (List.mem_cons_self _ _)
      show projectSegmentsAux (part :: rt) false cur [] = _
      unfold projectSegmentsAux
      rw [if_neg hpart, if_neg (by simp : ¬ (false = true)), if_neg hcur]
      rw [projectSegmentsAux_nonhidden rt (cur ++ '-' :: part)
        (by simp) (fun n hn => hall n (List.mem_cons_of_mem _ hn))]
      rw [joinSep_cons_append]

theorem projectSegments_single : ∀ ns : List (List Char), ns ≠ [] →
    (∀ n ∈ ns, n ≠ []) → projectSegments ns = [joinSep '-' ns]
  | [], h, _ => absurd rfl h
  | n0 :: nt, _, hall => by
      have h0 : n0 ≠ [] := hall n0 (List.mem_cons_self _ _)
      unfold projectSegments
      show projectSegmentsAux (n0 :: nt) false [] [] = _
      unfold projectSegmentsAux
      rw [if_neg h0, if_neg (by simp : ¬ (false = true)), if_pos rfl]
      exact projectSegmentsAux_nonhidden nt n0 h0
        (fun n hn => hall n (List.mem_cons_of_mem _ hn))

theorem joinSep_not_mem (sep x : Char) (hx : x ≠ sep) :
    ∀ cs : List (List Char), (∀ c ∈ cs, x ∉ c) → x ∉ joinSep sep cs
  | [], _ => by simp [joinSep]
  | [c], hcond => hcond c (List.mem_singleton.mpr rfl)
  | c :: d :: t, hcond => by
      show x ∉ c ++ sep :: joinSep sep (d :: t)
      intro hmem
      rcases List.mem_append.mp hmem with hm | hm
      · exact hcond c (List.mem_cons_self _ _) hm
      · rcases List.mem_cons.mp hm with rfl | hm'
        · exact hx rfl
        · exact joinSep_not_mem sep x hx (d :: t)
            (fun y hy => hcond y (List.mem_cons_of_mem _ hy)) hm'

theorem joinSep_ne_nil (sep : Char) (d : List Char) (t : List (List Char))
    (hd : d ≠ []) : joinSep sep (d :: t) ≠ [] := by
  intro hh
  have := joinSep_head sep d t hd
  rw [hh] at this
  cases d with
  | nil => exact hd rfl
  | cons dh dt => simp at this

theorem decode_encode_no_projects (cs : List (List Char)) (hne : cs ≠ [])
    (hcond : ∀ c ∈ cs, c ≠ [] ∧ '/' ∉ c ∧ '-' ∉ c ∧ c.head? ≠ some '.' ∧
      c ≠ "Projects".data ∧ c ≠ "UnityProjects".data) :
    convert_dir_name_to_path (convert_path_to_dir_name
      (String.mk ('/' :: joinSep '/' cs))) = String.mk ('/' :: joinSep '/' cs) := by
  have henc : (convert_path_to_dir_name (String.mk ('/' :: joinSep '/' cs))).data
      = '-' :: joinSep '-' cs := by
    show '-' :: encodePathChars (stripLead '/' ('/' :: joinSep '/' cs)) = _
    rw [show stripLead '/' ('/' :: joinSep '/' cs) = joinSep '/' cs from by
      simp [stripLead]]
    rw [encode_join cs hne (fun c hc =>
      ⟨(hcond c hc).1, (hcond c hc).2.1, (hcond c hc).2.2.2.1⟩)]
  unfold convert_dir_name_to_path
  rw [henc]
  congr 1
  show decodeFromName (stripLead '-' ('-' :: joinSep '-' cs)) = _
  rw [show stripLead '-' ('-' :: joinSep '-' cs) = joinSep '-' cs from by
    simp [stripLead]]
  unfold decodeFromName
  rw [split_join cs hne (fun c hc => (hcond c hc).2.2.1)]
  rw [if_neg hne]
  rw [findProjIdx_none cs (fun c hc hor => by
    rcases hor with h1 | h2
    · exact (hcond c hc).2.2.2.2.1 h1
    · exact (hcond c hc).2.2.2.2.2 h2)]
  show '/' :: (joinSep '-' cs).map (fun ch => if ch = '-' then '/' else ch) =
    '/' :: joinSep '/' cs
  rw [map_replace_join cs (fun c hc => (hcond c hc).2.2.1)]

theorem proj_token_good (proj : List Char)
    (hproj : proj = "Projects".data ∨ proj = "UnityProjects".data) :
    proj ≠ [] ∧ '/' ∉ proj ∧ '-' ∉ proj ∧ proj.head? ≠ some '.' := by
  rcases hproj with h | h <;> rw [h] <;> refine ⟨by decide, by decide, by decide, by decide⟩

theorem decode_encode_projects (pre ns : List (List Char)) (proj : List Char)
    (hproj : proj = "Projects".data ∨ proj = "UnityProjects".data)
    (hpre : ∀ c ∈ pre, c ≠ [] ∧ '/' ∉ c ∧ '-' ∉ c ∧ c.head? ≠ some '.' ∧
      c ≠ "Projects".data ∧ c ≠ "UnityProjects".data)
    (hns : ∀ n ∈ ns, n ≠ [] ∧ '/' ∉ n ∧ '-' ∉ n)
    (hhead : ∀ n0, ns.head? = some n0 → n0.head? ≠ some '.') :
    convert_dir_name_to_path (convert_path_to_dir_name
      (String.mk ('/' :: joinSep '/' (pre ++ proj ::
        (if ns = [] then [] else [joinSep '-' ns]))))) =
      String.mk ('/' :: joinSep '/' (pre ++ proj ::
        (if ns = [] then [] else [joinSep '-' ns]))) := by
  have hptok := proj_token_good proj hproj
  cases hnse : ns with
  | nil =>
      -- no component after Projects: the components are pre ++ [proj]
      subst hnse
      have hif : (if ([] : List (List Char)) = [] then ([] : List (List Char))
          else [joinSep '-' []]) = [] := if_pos rfl
      rw [hif]
      have hcs : ∀ c ∈ pre ++ [proj], c ≠ [] ∧ '/' ∉ c ∧ c.head? ≠ some '.' := by
        intro c hc
        rcases List.mem_append.mp hc with hm | hm
        · exact ⟨(hpre c hm).1, (hpre c hm).2.1, (hpre c hm).2.2.2.1⟩
        · rw [List.mem_singleton.mp hm]
          exact ⟨hptok.1, hptok.2.1, hptok.2.2.2⟩
      have hnenil : pre ++ [proj] ≠ [] := by simp
      have henc : (convert_path_to_dir_name
          (String.mk ('/' :: joinSep '/' (pre ++ [proj])))).data
          = '-' :: joinSep '-' (pre ++ [proj]) := by
        show '-' :: encodePathChars (stripLead '/'
          ('/' :: joinSep '/' (pre ++ [proj]))) = _
        rw [show stripLead '/' ('/' :: joinSep '/' (pre ++ [proj]))
            = joinSep '/' (pre ++ [proj]) from by simp [stripLead]]
        rw [encode_join (pre ++ [proj]) hnenil hcs]
      unfold convert_dir_name_to_path
      rw [henc]
      congr 1
      show decodeFromName (stripLead '-' ('-' :: joinSep '-' (pre ++ [proj]))) = _
      rw [show stripLead '-' ('-' :: joinSep '-' (pre ++ [proj]))
          = joinSep '-' (pre ++ [proj]) from by simp [stripLead]]
      unfold decodeFromName
      rw [split_join (pre ++ [proj]) hnenil (fun c hc => by
        rcases List.mem_append.mp hc with hm | hm
        · exact (hpre c hm).2.2.1
        · rw [List.mem_singleton.mp hm]; exact hptok.2.2.1)]
      rw [if_neg hnenil]
      rw [findProjIdx_append pre proj [] (fun c hc hor => by
        rcases hor with h1 | h2
        · exact (hpre c hc).2.2.2.2.1 h1
        · exact (hpre c hc).2.2.2.2.2 h2) hproj]
      show (if (pre ++ proj :: []).drop (pre.length + 1) = [] then
          '/' :: joinSep '/' ((pre ++ proj :: []).take (pre.length + 1))
        else _) = _
      rw [drop_len_append pre proj [], take_len_append pre proj []]
      rw [if_pos rfl]
  | cons n0 nt =>
      subst hnse
      have hnsne : n0 :: nt ≠ [] := by simp
      simp only [hnsne, if_neg, ite_false]
      have hJne : joinSep '-' (n0 :: nt) ≠ [] :=
        joinSep_ne_nil '-' n0 nt (hns n0 (List.mem_cons_self _ _)).1
      have hJnoslash : '/' ∉ joinSep '-' (n0 :: nt) :=
        joinSep_not_mem '-' '/' (by decide) (n0 :: nt) (fun n hn => (hns n hn).2.1)
      have hJhead : (joinSep '-' (n0 :: nt)).head? ≠ some '.' := by
        rw [joinSep_head '-' n0 nt (hns n0 (List.mem_cons_self _ _)).1]
        exact hhead n0 rfl
      have hcs : ∀ c ∈ pre ++ proj :: [joinSep '-' (n0 :: nt)],
          c ≠ [] ∧ '/' ∉ c ∧ c.head? ≠ some '.' := by
        intro c hc
        rcases List.mem_append.mp hc with hm | hm
        · exact ⟨(hpre c hm).1, (hpre c hm).2.1, (hpre c hm).2.2.2.1⟩
        · rcases List.mem_cons.mp hm with rfl | hm'
          · exact ⟨hptok.1, hptok.2.1, hptok.2.2.2⟩
          · rw [List.mem_singleton.mp hm']
            exact ⟨hJne, hJnoslash, hJhead⟩
      have hnenil : pre ++ proj :: [joinSep '-' (n0 :: nt)] ≠ [] := by simp
      -- the dash-join of the components equals the dash-join with the
      -- project component split into its pieces
      have hflat : joinSep '-' (pre ++ proj :: [joinSep '-' (n0 :: nt)])
          = joinSep '-' (pre ++ proj :: n0 :: nt) := by
        have h1 : pre ++ proj :: [joinSep '-' (n0 :: nt)]
            = (pre ++ [proj]) ++ [joinSep '-' (n0 :: nt)] := by simp
        have h2 : pre ++ proj :: n0 :: nt = (pre ++ [proj]) ++ (n0 :: nt) := by simp
        rw [h1, h2]
        rw [joinSep_append '-' (pre ++ [proj]) [joinSep '-' (n0 :: nt)]
          (by simp) (by simp)]
        rw [joinSep_append '-' (pre ++ [proj]) (n0 :: nt) (by simp) (by simp)]
        rfl
      have henc : (convert_path_to_dir_name
          (String.mk ('/' :: joinSep '/' (pre ++ proj :: [joinSep '-' (n0 :: nt)])))).data
          = '-' :: joinSep '-' (pre ++ proj :: n0 :: nt) := by
        show '-' :: encodePathChars (stripLead '/'
          ('/' :: joinSep '/' (pre ++ proj :: [joinSep '-' (n0 :: nt)]))) = _
        rw [show stripLead '/'
            ('/' :: joinSep '/' (pre ++ proj :: [joinSep '-' (n0 :: nt)]))
            = joinSep '/' (pre ++ proj :: [joinSep '-' (n0 :: nt)]) from by
          simp [stripLead]]
        rw [encode_join _ hnenil hcs, hflat]
      unfold convert_dir_name_to_path
      rw [henc]
      congr 1
      show decodeFromName (stripLead '-'
        ('-' :: joinSep '-' (pre ++ proj :: n0 :: nt))) = _
      rw [show stripLead '-' ('-' :: joinSep '-' (pre ++ proj :: n0 :: nt))
          = joinSep '-' (pre ++ proj :: n0 :: nt) from by simp [stripLead]]
      unfold decodeFromName
      rw [split_join (pre ++ proj :: n0 :: nt) (by simp) (fun c hc => by
        rcases List.mem_append.mp hc with hm | hm
        · exact (hpre c hm).2.2.1
        · rcases List.mem_cons.mp hm with rfl | hm'
          · exact hptok.2.2.1
          · exact (hns c hm').2.2)]
      rw [if_neg (by simp : ¬ (pre ++ proj :: n0 :: nt = []))]
      rw [findProjIdx_append pre proj (n0 :: nt) (fun c hc hor => by
        rcases hor with h1 | h2
        · exact (hpre c hc).2.2.2.2.1 h1
        · exact (hpre c hc).2.2.2.2.2 h2) hproj]
      show (if (pre ++ proj :: n0 :: nt).drop (pre.length + 1) = [] then
          '/' :: joinSep '/' ((pre ++ proj :: n0 :: nt).take (pre.length + 1))
        else ('/' :: joinSep '/' ((pre ++ proj :: n0 :: nt).take (pre.length + 1))) ++
          ('/' :: joinSep '/' (projectSegments
            ((pre ++ proj :: n0 :: nt).drop (pre.length + 1))))) = _
      rw [drop_len_append pre proj (n0 :: nt), take_len_append pre proj (n0 :: nt)]
      rw [if_neg (by simp : ¬ (n0 :: nt = []))]
      rw [projectSegments_single (n0 :: nt) (by simp)
        (fun n hn => (hns n hn).1)]
      show ('/' :: joinSep '/' (pre ++ [proj])) ++
          ('/' :: joinSep '-' (n0 :: nt)) =
        '/' :: joinSep '/' (pre ++ proj :: [joinSep '-' (n0 :: nt)])
      have h1 : pre ++ proj :: [joinSep '-' (n0 :: nt)]
          = (pre ++ [proj]) ++ [joinSep '-' (n0 :: nt)] := by simp
      rw [h1, joinSep_append '/' (pre ++ [proj]) [joinSep '-' (n0 :: nt)]
        (by simp) (by simp)]
      simp [joinSep]

/-- C5 (amended). The encoding round-trips on absolute paths without
hidden-folder segments provided that (a) when no component equals
"Projects"/"UnityProjects", no component contains a dash, and (b) when
some component equals "Projects"/"UnityProjects", the components up to
and including the first such contain no dash and at most one component
follows it (that single project component may itself contain single
dashes: it is given as its nonempty dash-separated pieces `ns`). Two
components after "Projects", or a dash elsewhere, break the round-trip
(see the counterexample). -/
theorem path_roundtrip_amended :
    (∀ cs : List (List Char), cs ≠ [] →
      (∀ c ∈ cs, c ≠ [] ∧ '/' ∉ c ∧ '-' ∉ c ∧ c.head? ≠ some '.' ∧
        c ≠ "Projects".data ∧ c ≠ "UnityProjects".data) →
      convert_dir_name_to_path (convert_path_to_dir_name
        (String.mk ('/' :: joinSep '/' cs))) = String.mk ('/' :: joinSep '/' cs)) ∧
    (∀ (pre ns : List (List Char)) (proj : List Char),
      (proj = "Projects".data ∨ proj = "UnityProjects".data) →
      (∀ c ∈ pre, c ≠ [] ∧ '/' ∉ c ∧ '-' ∉ c ∧ c.head? ≠ some '.' ∧
        c ≠ "Projects".data ∧ c ≠ "UnityProjects".data) →
      (∀ n ∈ ns, n ≠ [] ∧ '/' ∉ n ∧ '-' ∉ n) →
      (∀ n0, ns.head? = some n0 → n0.head? ≠ some '.') →
      convert_dir_name_to_path (convert_path_to_dir_name
        (String.mk ('/' :: joinSep '/' (pre ++ proj ::
          (if ns = [] then [] else [joinSep '-' ns]))))) =
        String.mk ('/' :: joinSep '/' (pre ++ proj ::
          (if ns = [] then [] else [joinSep '-' ns])))) :=
  ⟨decode_encode_no_projects, decode_encode_projects⟩

/-- C5 witness: the round-trip theorem applied to the concrete path
components Users/ozan/Projects with dashed project name my-app, whose
joined form is the string "/Users/ozan/Projects/my-app". -/
theorem path_roundtrip_amended_witness :
    convert_dir_name_to_path (convert_path_to_dir_name
      (String.mk ('/' :: joinSep '/' (["Users".data, "ozan".data] ++
        "Projects".data :: (if (["my".data, "app".data] : List (List Char)) = []
          then [] else [joinSep '-' ["my".data, "app".data]])))))
      = String.mk ('/' :: joinSep '/' (["Users".data, "ozan".data] ++
        "Projects".data :: (if (["my".data, "app".data] : List (List Char)) = []
          then [] else [joinSep '-' ["my".data, "app".data]]))) ∧
    String.mk ('/' :: joinSep '/' (["Users".data, "ozan".data] ++
        "Projects".data :: (if (["my".data, "app".data] : List (List Char)) = []
          then [] else [joinSep '-' ["my".data, "app".data]])))
      = "/Users/ozan/Projects/my-app" := by
  constructor
  · exact path_roundtrip_amended.2 ["Users".data, "ozan".data]
      ["my".data, "app".data] "Projects".data (Or.inl rfl)
      (by
        intro c hc
        simp only [List.mem_cons, List.not_mem_nil, or_false] at hc
        rcases hc with rfl | rfl
        · exact ⟨by decide, by decide, by decide, by decide, by decide, by decide⟩
        · exact ⟨by decide, by decide, by decide, by decide, by decide, by decide⟩)
      (by
        intro n hn
        simp only [List.mem_cons, List.not_mem_nil, or_false] at hn
        rcases hn with rfl | rfl
        · exact ⟨by decide, by decide, by decide⟩
        · exact ⟨by decide, by decide, by decide⟩)
      (by
        intro n0 h
        injection h with h'
        rw [← h']
        decide)
  · decide
